import Mathlib

/-!
# Framing and reassembly layer (`src/util/frames.c`)

A shallow embedding of `util_frames_*`: the frame state is a record, every
operation is a pure function from the state (and its arguments) to the new
state and the returned value.

Conventions of the embedding

* `uint32_t` values are natural numbers; every place where the C code stores
  into a `uint32_t` reduces modulo `2^32` (`u32`, `sub32`).
* A pointer to a byte buffer is `Option (List Byte)`: `none` is `NULL`, and
  `some b` is the content of the object it points to.
* A queue `qlob_t` is the list of its slots from the head on; a slot is
  `Option Lob` (`none`: the slot holds no packet).
* The `frames` argument is never `NULL`, the `len` out-parameter of
  `util_frames_outbox` is never `NULL`, and `malloc` succeeds; `free` has no
  effect on the values modelled, except where `util_frames_sent` frees the
  bytes of a packet (see there).
* The `data` argument of `util_frames_inbox` is the list of the bytes that can
  be read from the pointer on; a read or write outside a buffer is the
  outcome `fault`.
* `memcpy` of a `uint32_t` uses the host byte order, taken little-endian.
-/

namespace UtilFrames

/-- One octet. -/
abbrev Byte := Fin 256

/-- The modulus of `uint32_t`. -/
def U32 : Nat := 4294967296

/-- Conversion to `uint32_t`. -/
def u32 (n : Nat) : Nat := n % U32

/-- Subtraction of two `uint32_t` values, as C computes it. -/
def sub32 (a b : Nat) : Nat := (a % U32 + U32 - b % U32) % U32

/-- The four bytes `memcpy` reads from a `uint32_t` (host order: little-endian). -/
def le32 (v : Nat) : List Byte :=
  [Fin.ofNat v, Fin.ofNat (v / 256), Fin.ofNat (v / 65536), Fin.ofNat (v / 16777216)]

/-- The `uint32_t` that `memcpy` of the first four bytes of `b` yields. -/
def rd32 (b : List Byte) : Nat :=
  (b.getD 0 0).val + 256 * (b.getD 1 0).val + 65536 * (b.getD 2 0).val
    + 16777216 * (b.getD 3 0).val

/-- Modelled from the spec: the packet type `lob_t` of `telehash.h` is not part
of the sources; the spec describes it as an opaque byte sequence with a length
query, raw-byte access, release and a constructor adopting a buffer. -/
structure Lob where
  raw : List Byte
deriving DecidableEq, Repr

/-- Modelled from the spec: `lob_len`, the length query of the packet type
(`0` for no packet). -/
def lob_len : Option Lob → Nat
  | none => 0
  | some p => p.raw.length

/-- Modelled from the spec: `lob_raw`, raw-byte access of the packet type. -/
def lob_raw : Option Lob → Option (List Byte)
  | none => none
  | some p => some p.raw

/-- Modelled from the spec: `lob_free`, release of a packet; returns `NULL`. -/
def lob_free (_ : Option Lob) : Option Lob := none

/-- Modelled from the spec: `lob_direct`, the constructor that adopts the first
`len` bytes of an allocated buffer without copying. -/
def lob_direct (buf : List Byte) (len : Nat) : Option Lob := some ⟨buf.take len⟩

/-- The queue `qlob_t`: its slots from the head on. -/
abbrev Qlob := List (Option Lob)

/-- The record `struct util_frames_s`; `in_` is the field `in`. -/
structure Frames where
  magic : Nat
  max : Nat
  in_ : Option (List Byte)
  inlen : Nat
  inat : Nat
  out : Option (List Byte)
  outlen : Nat
  inbox : Qlob
  outbox : Qlob
  is_receiving : Bool
  is_sending : Bool
  inbox_err : Bool
deriving DecidableEq, Repr

/-- `malloc(n)`: a new buffer of `n` bytes (its indeterminate content is zero). -/
def malloc (n : Nat) : List Byte := List.replicate n 0

/-- `memcpy(dst + off, src, n)`: `none` when the copy would leave `dst` or `src`. -/
def memcpy (dst : Option (List Byte)) (off : Nat) (src : List Byte) (n : Nat) :
    Option (List Byte) :=
  match dst with
  | none => none
  | some d =>
    if off + n ≤ d.length ∧ n ≤ src.length then
      some (d.take off ++ src.take n ++ d.drop (off + n))
    else none

/-- `qlob_append`: adds a slot holding `lob` after the last slot. -/
def qlob_append : Qlob → Option Lob → Qlob
  | [], lob => [lob]
  | [p], lob => p :: qlob_append [] lob
  | p :: n :: rest, lob => p :: qlob_append (n :: rest) lob

/-- `qlob_free`: releases every slot; returns `NULL`. -/
def qlob_free (_ : Qlob) : Qlob := []

/-- The loop `while(!guard && (q = queue) && !q->pkt)` of `util_frames_inbox`
and `util_frames_outbox`: unlinks the leading slots that hold no packet. -/
def free_leading_empties (guard : Bool) : Qlob → Qlob
  | none :: rest => if guard then none :: rest else free_leading_empties guard rest
  | q => q

/-- `util_frames_new`. -/
def util_frames_new (magic max : Nat) : Frames :=
  { magic := u32 magic, max := u32 max, in_ := none, inlen := 0, inat := 0,
    out := none, outlen := 0, inbox := [], outbox := [],
    is_receiving := false, is_sending := false, inbox_err := false }

/-- `util_frames_clear` (reset-inbound). -/
def util_frames_clear (frames : Frames) : Frames :=
  { frames with in_ := none, inlen := 0, inat := 0, inbox_err := false }

/-- `util_frames_ok`: `true` when the state is returned, `false` for `NULL`. -/
def util_frames_ok (frames : Frames) : Bool := !frames.inbox_err

/-- `util_frames_send`: the new state and whether `frames` (not `NULL`) is
returned. -/
def util_frames_send (frames : Frames) (out : Option Lob) : Frames × Bool :=
  if lob_len out < 8 then (frames, false)
  else
    let frames := { frames with is_sending := true }
    let frames := { frames with outbox := qlob_append frames.outbox out }
    let frames := { frames with is_sending := false }
    (frames, true)

/-- The loop of `util_frames_receive`: the packet of the first slot holding
one, and the queue with that slot emptied. -/
def receive_scan : Qlob → Option Lob × Qlob
  | [] => (none, [])
  | some p :: rest => (some p, none :: rest)
  | none :: rest => ((receive_scan rest).1, none :: (receive_scan rest).2)

/-- `util_frames_receive`: the new state and the returned packet. -/
def util_frames_receive (frames : Frames) : Frames × Option Lob :=
  let frames := { frames with is_receiving := true }
  let r := receive_scan frames.inbox
  let frames := { frames with inbox := r.2 }
  let frames := { frames with is_receiving := false }
  (frames, r.1)

/-- The loop `for(q = queue; q; q = q->next) total += lob_len(q->pkt)` with its
`uint32_t` accumulator. -/
def qlob_total (q : Qlob) : Nat :=
  q.foldl (fun total s => u32 (total + lob_len s)) 0

/-- `util_frames_inlen`. -/
def util_frames_inlen (frames : Frames) : Nat := qlob_total frames.inbox

/-- `util_frames_outlen`. -/
def util_frames_outlen (frames : Frames) : Nat := qlob_total frames.outbox

/-- `util_frames_pending`. -/
def util_frames_pending (frames : Frames) : Bool :=
  decide (util_frames_outlen frames ≠ 0)

/-- `util_frames_busy`. -/
def util_frames_busy (frames : Frames) : Bool :=
  decide (u32 (util_frames_inlen frames + util_frames_outlen frames) > 0)

/-- `util_frames_awaiting`: the new state and the value stored in `*len`; the
returned pointer is `in + inat`. -/
def util_frames_awaiting (frames : Frames) : Frames × Nat :=
  let frames :=
    if frames.inlen = 0 then { frames with in_ := some (malloc 8), inlen := 8, inat := 0 }
    else frames
  (frames, sub32 frames.inlen frames.inat)

/-- What one invocation of `util_frames_inbox` does. -/
inductive Invocation where
  /-- It returns: the state it leaves and whether it returned `frames`
  (`false`: it returned `NULL`). -/
  | ret (frames : Frames) (ok : Bool)
  /-- It reads or writes outside a buffer. -/
  | fault
  /-- It ends with the call `util_frames_inbox(frames, more, morelen)`. -/
  | again (frames : Frames) (more : List Byte) (morelen : Nat)
deriving DecidableEq, Repr

/-- What a call of `util_frames_inbox` does. -/
inductive Outcome where
  /-- The call returns: the state it leaves and whether it returned `frames`
  (`false`: it returned `NULL`). -/
  | ret (frames : Frames) (ok : Bool)
  /-- The call reads or writes outside a buffer. -/
  | fault
  /-- The embedding ran out of recursion budget. -/
  | nofuel
deriving DecidableEq, Repr

/-- The body of `util_frames_inbox` up to its recursive call. `data` is the
content of the caller's buffer from the pointer `data` on, `len` the length
passed. The caller's buffer is distinct from `frames->in`, so both `memcpy`
calls are made. -/
def util_frames_inbox_body (frames : Frames) (data : List Byte) (len : Nat) : Invocation :=
  if len = 0 then Invocation.ret frames false
  else
    -- init to header if none
    let frames := if frames.inlen = 0 then (util_frames_awaiting frames).1 else frames
    let await := sub32 frames.inlen frames.inat
    -- take partial and advance
    if len < await then
      match memcpy frames.in_ frames.inat data len with
      | none => Invocation.fault
      | some buf =>
        Invocation.ret { frames with in_ := some buf, inat := u32 (frames.inat + len) } true
    else
      -- if there's a remainder, stash it
      let more : Option (List Byte) := if len > await then some (data.drop await) else none
      let morelen := if len > await then len - await else 0
      let len := if len > await then await else len
      -- handle complete frame now
      match memcpy frames.in_ frames.inat data len with
      | none => Invocation.fault
      | some buf =>
        let frames := { frames with in_ := some buf }
        -- is it a header
        if frames.inlen = 8 then
          if data.length < 8 then Invocation.fault
          else
            let inmagic := rd32 (data.take 4)
            let inlen := rd32 ((data.drop 4).take 4)
            let frames := { frames with in_ := none, inlen := 0, inat := 0 }
            -- ensure correct
            if inmagic ≠ frames.magic ∨ inlen > frames.max then
              Invocation.ret { frames with inbox_err := true } false
            else
              let frames := { frames with inbox_err := false }
              -- make space for full packet frame
              let frames := { frames with in_ := some (malloc inlen), inlen := inlen }
              match more with
              | some m => Invocation.again frames m morelen
              | none => Invocation.ret frames true
        else
          -- free any leading inbox empties
          let frames :=
            { frames with inbox := free_leading_empties frames.is_receiving frames.inbox }
          -- new inbox packet
          let frames :=
            { frames with inbox := qlob_append frames.inbox (lob_direct buf frames.inlen) }
          let frames := { frames with in_ := none, inlen := 0, inat := 0 }
          match more with
          | some m => Invocation.again frames m morelen
          | none => Invocation.ret frames true

/-- `util_frames_inbox` with a budget of invocations. -/
def util_frames_inbox_go : Nat → Frames → List Byte → Nat → Outcome
  | 0, _, _, _ => Outcome.nofuel
  | fuel + 1, frames, data, len =>
    match util_frames_inbox_body frames data len with
    | Invocation.ret f ok => Outcome.ret f ok
    | Invocation.fault => Outcome.fault
    | Invocation.again f more morelen => util_frames_inbox_go fuel f more morelen

/-- `util_frames_inbox` (feed-inbound): every invocation but possibly the first
consumes a byte, so `len + 1` invocations are enough. -/
def util_frames_inbox (frames : Frames) (data : List Byte) (len : Nat) : Outcome :=
  util_frames_inbox_go (len + 1) frames data len

/-- `util_frames_outbox` (peek-outbound): the new state, the returned pointer
and the value stored in `*len`. -/
def util_frames_outbox (frames : Frames) : Frames × Option (List Byte) × Nat :=
  -- load up next frame if none
  if frames.outlen = 0 then
    -- free any leading empties
    let frames :=
      { frames with outbox := free_leading_empties frames.is_sending frames.outbox }
    match frames.outbox with
    | [] => (frames, none, 0)
    | q :: _ =>
      -- add header for next pkt
      let frames :=
        { frames with out := some (le32 frames.magic ++ le32 (u32 (lob_len q))), outlen := 8 }
      (frames, frames.out, frames.outlen)
  else (frames, frames.out, frames.outlen)

/-- `util_frames_sent` (advance-outbound): the new state and whether `frames`
(not `NULL`) is returned. The header branch also runs `free(frames->out)`,
which has no effect on the values modelled as long as `out` is the header
buffer. When `outlen` is 8 because an 8-byte payload is in flight, the source
frees the bytes of the head packet there: from then on the content of `out`
and of that packet is not the one kept here, only the lengths, the slots and
the returned flag are. -/
def util_frames_sent (frames : Frames) : Frames × Bool :=
  match frames.outbox with
  | [] => (frames, false)
  | q :: rest =>
    if frames.outlen = 0 then (frames, false)
    else
      let frames :=
        -- check if header was just sent
        if frames.outlen = 8 then
          { frames with out := lob_raw q, outlen := u32 (lob_len q) }
        else
          -- packet is sent
          { frames with out := none, outlen := 0, outbox := lob_free q :: rest }
      (frames, decide (util_frames_outlen frames ≠ 0))

/-- The bytes a transport writes for a view `(pointer, length)` returned by
`util_frames_outbox`. -/
def chunk (view : Option (List Byte) × Nat) : List Byte :=
  match view.1 with
  | none => []
  | some b => b.take view.2

/-- The packets a queue holds, from the head on. -/
def held (q : Qlob) : List Lob := q.filterMap id

/-- The values returned by `k` successive calls of `util_frames_receive`, and
the state they leave. -/
def receive_many : Nat → Frames → Frames × List (Option Lob)
  | 0, frames => (frames, [])
  | k + 1, frames =>
    let r := util_frames_receive frames
    let rs := receive_many k r.1
    (rs.1, r.2 :: rs.2)

/-- The transport loop `peek-outbound, transmit, advance-outbound`, run for at
most `budget` rounds: the state it leaves, the chunks transmitted, and
`some n` when `util_frames_outbox` returned empty (length `0`) after `n` calls
of `util_frames_sent` (`none`: the loop is still running). -/
def transmit_loop : Nat → Frames → Frames × List (List Byte) × Option Nat
  | 0, frames => (frames, [], none)
  | budget + 1, frames =>
    let r := util_frames_outbox frames
    if r.2.2 = 0 then (r.1, [], some 0)
    else
      let s := util_frames_sent r.1
      let t := transmit_loop budget s.1
      (t.1, chunk r.2 :: t.2.1, t.2.2.map (· + 1))

/-- Sends the packets in order; `none` when a `util_frames_send` fails. -/
def send_all : Frames → List Lob → Option Frames
  | frames, [] => some frames
  | frames, p :: ps =>
    let r := util_frames_send frames (some p)
    if r.2 then send_all r.1 ps else none

/-- Delivers the chunks in order, each with one call of `util_frames_inbox`
on a buffer of exactly the chunk; `none` when a call faults. -/
def feed_chunks : Frames → List (List Byte) → Option Frames
  | frames, [] => some frames
  | frames, c :: cs =>
    match util_frames_inbox frames c c.length with
    | Outcome.ret f _ => feed_chunks f cs
    | _ => none

/-- The public operations on a frame state. -/
inductive Op where
  | send (out : Option Lob)
  | receive
  | outbox
  | sent
  | awaiting
  | inbox (data : List Byte)
  | clear
deriving DecidableEq, Repr

/-- The operations that write the error latch: `util_frames_inbox` and
`util_frames_clear`. -/
def Op.writes_latch : Op → Bool
  | Op.inbox _ => true
  | Op.clear => true
  | _ => false

/-- One operation: the state it leaves and the packet it hands to the caller
(`util_frames_receive` only); `none` when `util_frames_inbox` faults. -/
def step (frames : Frames) : Op → Option (Frames × Option Lob)
  | Op.send out => some ((util_frames_send frames out).1, none)
  | Op.receive => some (util_frames_receive frames)
  | Op.outbox => some ((util_frames_outbox frames).1, none)
  | Op.sent => some ((util_frames_sent frames).1, none)
  | Op.awaiting => some ((util_frames_awaiting frames).1, none)
  | Op.inbox data =>
    match util_frames_inbox frames data data.length with
    | Outcome.ret f _ => some (f, none)
    | _ => none
  | Op.clear => some (util_frames_clear frames, none)

/-- A sequence of operations: the state it leaves and the packets the
`util_frames_receive` calls returned, in order. -/
def run : Frames → List Op → Option (Frames × List Lob)
  | frames, [] => some (frames, [])
  | frames, op :: ops =>
    match step frames op with
    | none => none
    | some (f, got) =>
      match run f ops with
      | none => none
      | some (g, gots) => some (g, got.toList ++ gots)

/-- The state `util_frames_inbox` leaves when it rejects a header. -/
def header_rejected (frames : Frames) : Frames :=
  { frames with in_ := none, inlen := 0, inat := 0, inbox_err := true }

/-- The state `util_frames_inbox` leaves when it accepts a header declaring
`n` bytes. -/
def header_accepted (frames : Frames) (n : Nat) : Frames :=
  { frames with in_ := some (malloc n), inlen := n, inat := 0, inbox_err := false }

/-- The sum of the lengths of the packets in the slots of a queue, as an
integer (the queued bytes of the spec, without the 32-bit accumulator). -/
def queued_bytes (q : Qlob) : Nat := (q.map lob_len).sum

/-- The states a freshly created state reaches by public operations. -/
def Reachable (s : Frames) : Prop :=
  ∃ magic max ops got, run (util_frames_new magic max) ops = some (s, got)

/-- The lengths passed to the recursive calls that one call of
`util_frames_inbox` makes, in order. -/
def inbox_remainders : Nat → Frames → List Byte → Nat → List Nat
  | 0, _, _, _ => []
  | fuel + 1, frames, data, len =>
    match util_frames_inbox_body frames data len with
    | Invocation.again f more morelen => morelen :: inbox_remainders fuel f more morelen
    | _ => []

/-- What the states reached by public operations have in common: both guards
are clear between operations; the inbound target fits 32 bits, the progress is
below a non-zero target, and a non-zero target has a buffer of that size; in
each queue the empty slots come first; the inbox packets are not empty; and a
chunk in flight belongs to the packet of the head slot of the outbox. -/
structure StateInv (s : Frames) : Prop where
  sending : s.is_sending = false
  receiving : s.is_receiving = false
  target : s.inlen < U32
  progress : s.inat ≤ s.inlen ∧ (s.inlen ≠ 0 → s.inat < s.inlen)
  buffer : s.inlen ≠ 0 → ∃ buf, s.in_ = some buf ∧ buf.length = s.inlen
  inbox_shape : ∃ (e : Nat) (ps : List Lob), s.inbox = List.replicate e none ++ ps.map some ∧
    ∀ p ∈ ps, 1 ≤ p.raw.length
  outbox_shape : ∃ (e : Nat) (ps : List Lob), s.outbox = List.replicate e none ++ ps.map some
  in_flight : s.outlen ≠ 0 → ∃ (p : Lob) (rest : Qlob), s.outbox = some p :: rest ∧
    (s.outlen = 8 ∨ s.outlen = u32 p.raw.length)

/-- The state an invocation leaves, when it does not fault. -/
def Invocation.state : Invocation → Option Frames
  | Invocation.ret f _ => some f
  | Invocation.fault => none
  | Invocation.again f _ _ => some f

/-- Whether the call `util_frames_inbox(frames, data, len)`, made while no
payload is in progress, brings the header to its 8 bytes and accepts it: the
sync and the length the call reads from `data` are the configured sync and a
length within the bound. -/
def completes_valid_header (frames : Frames) (data : List Byte) (len : Nat) : Bool :=
  decide (len ≠ 0 ∧
    sub32 (util_frames_awaiting frames).1.inlen (util_frames_awaiting frames).1.inat ≤ len ∧
    rd32 (data.take 4) = frames.magic ∧ rd32 ((data.drop 4).take 4) ≤ frames.max)

/-- Whether an operation, in a state with no payload in progress, is neither
`util_frames_clear` nor a `util_frames_inbox` call that faults or completes a
valid header. -/
def Op.keeps_latch (frames : Frames) : Op → Bool
  | Op.clear => false
  | Op.inbox data =>
    (match util_frames_inbox frames data data.length with
      | Outcome.ret _ _ => true
      | _ => false) && !completes_valid_header frames data data.length
  | _ => true

/-- Whether every operation of a sequence, in the state it is applied to,
keeps the latch in the sense of `Op.keeps_latch`. -/
def latch_undisturbed : Frames → List Op → Bool
  | _, [] => true
  | frames, op :: ops =>
    op.keeps_latch frames &&
      (match step frames op with
        | some (f, _) => latch_undisturbed f ops
        | none => false)

/-! ## Queue lemmas -/

theorem qlob_append_eq (q : Qlob) (lob : Option Lob) : qlob_append q lob = q ++ [lob] := by
  induction q with
  | nil => rfl
  | cons p rest ih =>
    cases rest with
    | nil => rfl
    | cons n rest => simp only [qlob_append, ih, List.cons_append]

theorem receive_scan_replicate (n : Nat) (p : Lob) (post : Qlob) :
    receive_scan (List.replicate n none ++ some p :: post)
      = (some p, List.replicate n none ++ none :: post) := by
  induction n with
  | zero => rfl
  | succ n ih =>
    show receive_scan (none :: (List.replicate n none ++ some p :: post)) = _
    rw [receive_scan, ih]
    rfl

theorem receive_scan_fst (q : Qlob) : (receive_scan q).1 = (held q).head? := by
  induction q with
  | nil => rfl
  | cons s rest ih =>
    cases s with
    | none => simpa [receive_scan, held] using ih
    | some p => simp [receive_scan, held]

theorem held_receive_scan (q : Qlob) : held (receive_scan q).2 = (held q).tail := by
  induction q with
  | nil => rfl
  | cons s rest ih =>
    cases s with
    | none => simpa [receive_scan, held] using ih
    | some p => simp [receive_scan, held]

theorem first_held_slot (q : Qlob) (h : held q ≠ []) :
    ∃ n p post, q = List.replicate n none ++ some p :: post := by
  induction q with
  | nil => exact absurd rfl h
  | cons s rest ih =>
    cases s with
    | some p => exact ⟨0, p, rest, rfl⟩
    | none =>
      obtain ⟨n, p, post, hq⟩ := ih (by simpa [held] using h)
      exact ⟨n + 1, p, post, by rw [hq]; rfl⟩

theorem receive_many_snd (k : Nat) (frames : Frames) :
    (receive_many k frames).2
      = ((held frames.inbox).take k).map some
          ++ List.replicate (k - (held frames.inbox).length) none := by
  induction k generalizing frames with
  | zero => simp [receive_many]
  | succ k ih =>
    simp only [receive_many, ih, util_frames_receive, receive_scan_fst, held_receive_scan]
    cases h : held frames.inbox with
    | nil => simp [List.replicate_succ]
    | cons p ps => simp

theorem free_leading_empties_idem (g : Bool) (q : Qlob) :
    free_leading_empties g (free_leading_empties g q) = free_leading_empties g q := by
  induction q with
  | nil => rfl
  | cons s rest ih =>
    cases s with
    | some p => rfl
    | none =>
      cases g with
      | true => rfl
      | false => simpa [free_leading_empties] using ih

/-! ## Header bytes -/

theorem sub32_8_0 : sub32 8 0 = 8 := by decide

theorem rd32_le32 (v : Nat) (hv : v < U32) : rd32 (le32 v) = v := by
  simp only [rd32, le32, List.getD_cons_zero, List.getD_cons_succ, Fin.ofNat, U32] at *
  omega

theorem memcpy_header (buf data : List Byte) (hbuf : buf.length = 8) (hd : 8 ≤ data.length) :
    memcpy (some buf) 0 data 8 = some (data.take 8) := by
  have h0 : List.drop 8 buf = [] := List.drop_of_length_le (by omega)
  simp [memcpy, hbuf, hd, h0]

/-! ## One call of `util_frames_inbox` that completes a header -/

theorem inbox_body_header (frames : Frames) (data : List Byte) (len : Nat)
    (hin : frames.inlen = 0 ∨
      (frames.inlen = 8 ∧ frames.inat = 0 ∧ ∃ buf, frames.in_ = some buf ∧ buf.length = 8))
    (hlen : 8 ≤ len) (hd : 8 ≤ data.length) :
    util_frames_inbox_body frames data len =
      if rd32 (data.take 4) ≠ frames.magic ∨ rd32 ((data.drop 4).take 4) > frames.max then
        Invocation.ret (header_rejected frames) false
      else if len > 8 then
        Invocation.again (header_accepted frames (rd32 ((data.drop 4).take 4)))
          (data.drop 8) (len - 8)
      else Invocation.ret (header_accepted frames (rd32 ((data.drop 4).take 4))) true := by
  have hl0 : ¬ len = 0 := by omega
  have hl8 : ¬ len < 8 := by omega
  have hd8 : ¬ data.length < 8 := by omega
  unfold util_frames_inbox_body
  rcases hin with hin | ⟨hin, hat, buf, hbuf, hbl⟩
  · simp only [util_frames_awaiting, hin, if_true, sub32_8_0, hl0, hl8, if_false]
    have hm : memcpy (some (malloc 8)) 0 data (if len > 8 then 8 else len)
        = some (data.take 8) := by
      have : (if len > 8 then 8 else len) = 8 := by split <;> omega
      rw [this]
      exact memcpy_header _ _ (by simp [malloc]) hd
    simp only [hm, hd8, if_false, header_rejected, header_accepted]
    split
    · rfl
    · by_cases h8 : len > 8
      · simp only [h8, if_true]
      · simp only [h8, if_false]
  · have h80 : ¬ (8 : Nat) = 0 := by omega
    simp only [hin, hat, h80, if_false, sub32_8_0, hl0, hl8, hbuf]
    have hm : memcpy (some buf) 0 data (if len > 8 then 8 else len)
        = some (data.take 8) := by
      have : (if len > 8 then 8 else len) = 8 := by split <;> omega
      rw [this]
      exact memcpy_header _ _ hbl hd
    simp only [hm, hd8, if_false, header_rejected, header_accepted, if_true]
    split
    · rfl
    · by_cases h8 : len > 8
      · simp only [h8, if_true]
      · simp only [h8, if_false]

theorem inbox_go_header (fuel : Nat) (frames : Frames) (data : List Byte) (len : Nat)
    (hin : frames.inlen = 0 ∨
      (frames.inlen = 8 ∧ frames.inat = 0 ∧ ∃ buf, frames.in_ = some buf ∧ buf.length = 8))
    (hlen : 8 ≤ len) (hd : 8 ≤ data.length) :
    util_frames_inbox_go (fuel + 1) frames data len =
      if rd32 (data.take 4) ≠ frames.magic ∨ rd32 ((data.drop 4).take 4) > frames.max then
        Outcome.ret (header_rejected frames) false
      else if len > 8 then
        util_frames_inbox_go fuel (header_accepted frames (rd32 ((data.drop 4).take 4)))
          (data.drop 8) (len - 8)
      else Outcome.ret (header_accepted frames (rd32 ((data.drop 4).take 4))) true := by
  rw [util_frames_inbox_go, inbox_body_header frames data len hin hlen hd]
  by_cases hb : rd32 (data.take 4) ≠ frames.magic ∨ rd32 ((data.drop 4).take 4) > frames.max
  · simp only [if_pos hb]
  · by_cases h8 : len > 8
    · simp only [if_neg hb, if_pos h8]
    · simp only [if_neg hb, if_neg h8]

theorem le32_length (v : Nat) : (le32 v).length = 4 := rfl

theorem u32_8 : u32 8 = 8 := by decide

/-! ## The error latch and the other operations -/

theorem head_toList_append_tail {α : Type} (l : List α) : l.head?.toList ++ l.tail = l := by
  cases l <;> rfl

theorem step_keeps_latch (frames : Frames) (op : Op) (h : op.writes_latch = false) :
    ∃ f got, step frames op = some (f, got) ∧ f.inbox_err = frames.inbox_err ∧
      held frames.inbox = got.toList ++ held f.inbox := by
  cases op with
  | send out =>
    refine ⟨_, _, rfl, ?_, ?_⟩
    · unfold util_frames_send; split <;> rfl
    · unfold util_frames_send; split <;> rfl
  | receive =>
    refine ⟨_, _, rfl, rfl, ?_⟩
    simp only [util_frames_receive, receive_scan_fst, held_receive_scan,
      head_toList_append_tail]
  | outbox =>
    refine ⟨_, _, rfl, ?_, ?_⟩
    · unfold util_frames_outbox; split
      · dsimp only; split <;> rfl
      · rfl
    · unfold util_frames_outbox; split
      · dsimp only; split <;> rfl
      · rfl
  | sent =>
    refine ⟨_, _, rfl, ?_, ?_⟩
    · unfold util_frames_sent; split
      · rfl
      · split
        · rfl
        · split <;> rfl
    · unfold util_frames_sent; split
      · rfl
      · split
        · rfl
        · split <;> rfl
  | awaiting =>
    refine ⟨_, _, rfl, ?_, ?_⟩
    · unfold util_frames_awaiting; dsimp only; split <;> rfl
    · unfold util_frames_awaiting; dsimp only; split <;> rfl
  | inbox data => simp [Op.writes_latch] at h
  | clear => simp [Op.writes_latch] at h

theorem rd32_lt (b : List Byte) : rd32 b < U32 := by
  have h0 := (b.getD 0 0).isLt
  have h1 := (b.getD 1 0).isLt
  have h2 := (b.getD 2 0).isLt
  have h3 := (b.getD 3 0).isLt
  simp only [rd32, U32]
  omega

theorem await_pos (frames : Frames) (hat : frames.inat = 0) (hlt : frames.inlen < U32) :
    1 ≤ sub32 (if frames.inlen = 0 then (util_frames_awaiting frames).1 else frames).inlen
          (if frames.inlen = 0 then (util_frames_awaiting frames).1 else frames).inat := by
  by_cases h0 : frames.inlen = 0
  · simp only [h0, if_true, util_frames_awaiting, sub32_8_0]
    decide
  · simp only [U32] at hlt
    simp only [h0, if_false, hat, sub32, U32]
    omega

theorem inbox_body_again (frames : Frames) (data : List Byte) (len : Nat) (f : Frames)
    (m : List Byte) (ml : Nat)
    (h : util_frames_inbox_body frames data len = Invocation.again f m ml) :
    1 ≤ ml ∧ ml ≤ len ∧ m = data.drop (len - ml) ∧ f.inat = 0 ∧ f.inlen < U32 ∧
      (frames.inat = 0 → frames.inlen < U32 → ml < len) := by
  have key := await_pos frames
  unfold util_frames_inbox_body at h
  generalize (if frames.inlen = 0 then (util_frames_awaiting frames).1 else frames) = fr
    at h key
  dsimp only at h
  generalize sub32 fr.inlen fr.inat = a at h key
  split at h
  · exact absurd h (by simp)
  · split at h
    · split at h <;> exact absurd h (by simp)
    · rename_i hlen
      split at h
      · exact absurd h (by simp)
      · by_cases hgt : len > a
        · simp only [hgt, if_true] at h
          split at h
          · split at h
            · exact absurd h (by simp)
            · split at h
              · exact absurd h (by simp)
              · injection h with h1 h2 h3
                subst h1 h2 h3
                refine ⟨by omega, by omega, ?_, rfl, rd32_lt _, ?_⟩
                · congr 1; omega
                · intro hat hlt
                  have := key hat hlt
                  omega
          · injection h with h1 h2 h3
            subst h1 h2 h3
            refine ⟨by omega, by omega, ?_, rfl, by simp [U32], ?_⟩
            · congr 1; omega
            · intro hat hlt
              have := key hat hlt
              omega
        · simp only [hgt, if_false] at h
          split at h
          · split at h
            · exact absurd h (by simp)
            · split at h <;> exact absurd h (by simp)
          · exact absurd h (by simp)

theorem inbox_go_ne_nofuel (fuel : Nat) (frames : Frames) (data : List Byte) (len : Nat)
    (hat : frames.inat = 0) (hlt : frames.inlen < U32) (hf : len ≤ fuel) (h1 : 1 ≤ fuel) :
    util_frames_inbox_go fuel frames data len ≠ Outcome.nofuel := by
  induction fuel generalizing frames data len with
  | zero => omega
  | succ fuel ih =>
    rw [util_frames_inbox_go]
    cases hb : util_frames_inbox_body frames data len with
    | ret f ok => simp
    | fault => simp
    | again f m ml =>
      obtain ⟨hml, _, _, hfa, hfl, hdec⟩ := inbox_body_again frames data len f m ml hb
      have := hdec hat hlt
      exact ih f m ml hfa hfl (by omega) (by omega)

/-- `util_frames_inbox` never exhausts its budget of invocations: every call
returns or faults. -/
theorem util_frames_inbox_ne_nofuel (frames : Frames) (data : List Byte) (len : Nat) :
    util_frames_inbox frames data len ≠ Outcome.nofuel := by
  unfold util_frames_inbox
  rw [util_frames_inbox_go]
  cases hb : util_frames_inbox_body frames data len with
  | ret f ok => simp
  | fault => simp
  | again f m ml =>
    obtain ⟨hml, hle, _, hfa, hfl, _⟩ := inbox_body_again frames data len f m ml hb
    exact inbox_go_ne_nofuel len f m ml hfa hfl hle (by omega)

/-- A larger budget does not change what a call that ended does. -/
theorem inbox_go_mono (fuel : Nat) (frames : Frames) (data : List Byte) (len : Nat)
    (h : util_frames_inbox_go fuel frames data len ≠ Outcome.nofuel) (k : Nat) :
    util_frames_inbox_go (fuel + k) frames data len = util_frames_inbox_go fuel frames data len := by
  induction fuel generalizing frames data len with
  | zero => exact absurd rfl h
  | succ fuel ih =>
    rw [show fuel + 1 + k = (fuel + k) + 1 by omega, util_frames_inbox_go, util_frames_inbox_go]
    rw [util_frames_inbox_go] at h
    cases hb : util_frames_inbox_body frames data len with
    | ret f ok => rfl
    | fault => rfl
    | again f m ml =>
      rw [hb] at h
      exact ih f m ml h

/-! ## One call of `util_frames_inbox` on a payload -/

theorem sub32_of_le (a b : Nat) (hb : b ≤ a) (ha : a < U32) : sub32 a b = a - b := by
  simp only [sub32, U32] at *
  omega

theorem inbox_body_partial (frames : Frames) (data : List Byte) (len : Nat) (buf : List Byte)
    (hin : frames.inlen ≠ 0) (hlt : frames.inlen < U32) (hbuf : frames.in_ = some buf)
    (hbl : buf.length = frames.inlen) (hl1 : 1 ≤ len)
    (hl : frames.inat + len < frames.inlen) (hd : len ≤ data.length) :
    util_frames_inbox_body frames data len =
      Invocation.ret
        { frames with
            in_ := some (buf.take frames.inat ++ data.take len ++ buf.drop (frames.inat + len)),
            inat := frames.inat + len } true := by
  have hl0 : ¬ len = 0 := by omega
  have hs : sub32 frames.inlen frames.inat = frames.inlen - frames.inat :=
    sub32_of_le _ _ (by omega) hlt
  have hlt2 : len < frames.inlen - frames.inat := by omega
  have hu : u32 (frames.inat + len) = frames.inat + len := by
    simp only [u32, U32] at *
    omega
  have hm : memcpy (some buf) frames.inat data len
      = some (buf.take frames.inat ++ data.take len ++ buf.drop (frames.inat + len)) := by
    have : frames.inat + len ≤ buf.length ∧ len ≤ data.length := ⟨by omega, hd⟩
    simp only [memcpy, this, and_self, if_true]
  unfold util_frames_inbox_body
  simp only [hl0, hin, if_false, hs, hlt2, if_true, hbuf, hm, hu]

theorem inbox_body_payload (frames : Frames) (data : List Byte) (len : Nat) (buf : List Byte)
    (hin : frames.inlen ≠ 0) (h8 : frames.inlen ≠ 8) (hlt : frames.inlen < U32)
    (hbuf : frames.in_ = some buf) (hbl : buf.length = frames.inlen)
    (hat : frames.inat ≤ frames.inlen) (hl1 : 1 ≤ len)
    (hl : frames.inlen ≤ frames.inat + len) (hd : frames.inlen ≤ frames.inat + data.length) :
    util_frames_inbox_body frames data len =
      if len > frames.inlen - frames.inat then
        Invocation.again
          { frames with
              in_ := none, inlen := 0, inat := 0,
              inbox := free_leading_empties frames.is_receiving frames.inbox
                ++ [some ⟨buf.take frames.inat ++ data.take (frames.inlen - frames.inat)⟩] }
          (data.drop (frames.inlen - frames.inat)) (len - (frames.inlen - frames.inat))
      else
        Invocation.ret
          { frames with
              in_ := none, inlen := 0, inat := 0,
              inbox := free_leading_empties frames.is_receiving frames.inbox
                ++ [some ⟨buf.take frames.inat ++ data.take (frames.inlen - frames.inat)⟩] }
          true := by
  have hl0 : ¬ len = 0 := by omega
  have hs : sub32 frames.inlen frames.inat = frames.inlen - frames.inat :=
    sub32_of_le _ _ hat hlt
  have hlt2 : ¬ len < frames.inlen - frames.inat := by omega
  have hn : (if len > frames.inlen - frames.inat then frames.inlen - frames.inat else len)
      = frames.inlen - frames.inat := by split <;> omega
  have hdrop : buf.drop (frames.inat + (frames.inlen - frames.inat)) = [] :=
    List.drop_of_length_le (by omega)
  have hm : memcpy (some buf) frames.inat data (frames.inlen - frames.inat)
      = some (buf.take frames.inat ++ data.take (frames.inlen - frames.inat)) := by
    have : frames.inat + (frames.inlen - frames.inat) ≤ buf.length ∧
        frames.inlen - frames.inat ≤ data.length := ⟨by omega, by omega⟩
    simp only [memcpy, this, and_self, if_true, hdrop, List.append_nil]
  have htake : (buf.take frames.inat ++ data.take (frames.inlen - frames.inat)).take frames.inlen
      = buf.take frames.inat ++ data.take (frames.inlen - frames.inat) :=
    List.take_of_length_le (by simp; omega)
  unfold util_frames_inbox_body
  simp only [hl0, hin, if_false, hs, hlt2, hbuf, hn, hm, h8, lob_direct, htake, qlob_append_eq]
  by_cases hgt : len > frames.inlen - frames.inat
  · simp only [hgt, if_true]
  · simp only [hgt, if_false]

/-- A frame whose declared length is neither 0 nor 8, delivered whole in one
call while no frame is in progress, is appended to the inbox after the slots
left by pruning, and leaves no frame in progress and the latch clear. -/
theorem frame_completes (frames : Frames) (payload : List Byte)
    (hin : frames.inlen = 0) (hm : frames.magic < U32)
    (hL1 : 1 ≤ payload.length) (hL8 : payload.length ≠ 8)
    (hmax : payload.length ≤ frames.max) (hLu : payload.length < U32) :
    util_frames_inbox frames (le32 frames.magic ++ le32 payload.length ++ payload)
        (8 + payload.length)
      = Outcome.ret
          { frames with
              in_ := none, inlen := 0, inat := 0, inbox_err := false,
              inbox := free_leading_empties frames.is_receiving frames.inbox
                ++ [some ⟨payload⟩] } true := by
  have h1 : List.take 4 (le32 frames.magic ++ le32 payload.length ++ payload)
      = le32 frames.magic := by
    rw [List.append_assoc, List.take_left' (le32_length _)]
  have h2 : List.take 4 (List.drop 4 (le32 frames.magic ++ le32 payload.length ++ payload))
      = le32 payload.length := by
    rw [List.append_assoc, List.drop_left' (le32_length _), List.take_left' (le32_length _)]
  have h3 : List.drop 8 (le32 frames.magic ++ le32 payload.length ++ payload) = payload :=
    List.drop_left' (by simp [le32_length])
  have hl : (le32 frames.magic ++ le32 payload.length ++ payload).length
      = 8 + payload.length := by
    simp [le32_length]; omega
  have hok : ¬ (rd32 (le32 frames.magic) ≠ frames.magic ∨
      rd32 (le32 payload.length) > frames.max) := by
    rw [rd32_le32 _ hm, rd32_le32 _ hLu]; simp; omega
  have s1 := inbox_go_header (8 + payload.length) frames
    (le32 frames.magic ++ le32 payload.length ++ payload) (8 + payload.length)
    (Or.inl hin) (by omega) (by omega)
  rw [h1, h2, h3, rd32_le32 _ hLu] at s1
  rw [if_neg (by rw [rd32_le32 _ hLu] at hok; exact hok), if_pos (by omega)] at s1
  have s2 := inbox_body_payload (header_accepted frames payload.length) payload payload.length
    (malloc payload.length) (by show payload.length ≠ 0; omega) hL8 hLu rfl
    (by simp [malloc, header_accepted]) (Nat.zero_le _) hL1
    (by show payload.length ≤ 0 + payload.length; omega)
    (by show payload.length ≤ 0 + payload.length; omega)
  unfold util_frames_inbox
  rw [s1]
  rw [show 8 + payload.length - 8 = payload.length by omega]
  obtain ⟨k, hk⟩ : ∃ k, 8 + payload.length = k + 1 := ⟨7 + payload.length, by omega⟩
  rw [hk, util_frames_inbox_go, s2]
  simp [header_accepted]

/-! ## The transport loop on packets longer than 8 bytes -/

theorem free_leading_empties_replicate (e : Nat) (p : Lob) (rest : Qlob) :
    free_leading_empties false (List.replicate e none ++ some p :: rest) = some p :: rest := by
  induction e with
  | zero => rfl
  | succ e ih =>
    show free_leading_empties false (none :: (List.replicate e none ++ some p :: rest)) = _
    rw [free_leading_empties]
    simpa using ih

theorem free_leading_empties_all (e : Nat) :
    free_leading_empties false (List.replicate e none) = [] := by
  induction e with
  | zero => rfl
  | succ e ih =>
    show free_leading_empties false (none :: List.replicate e none) = _
    rw [free_leading_empties]
    simpa using ih

/-- With nothing in flight, the sending guard clear and an outbox of `e` empty
slots followed by packets of 9 bytes or more, the transport loop stops after
two advances per packet, has transmitted each header followed by its packet,
and leaves the outbox empty. -/
theorem transmit_loop_all (ps : List Lob) (e k : Nat) (frames : Frames)
    (hps : ∀ p ∈ ps, 9 ≤ p.raw.length ∧ p.raw.length < U32)
    (h0 : frames.outlen = 0) (hout : frames.out = none) (hs : frames.is_sending = false)
    (hq : frames.outbox = List.replicate e none ++ ps.map some) :
    transmit_loop (2 * ps.length + 1 + k) frames
      = ({ frames with outbox := [] },
          ps.flatMap (fun p => [le32 frames.magic ++ le32 p.raw.length, p.raw]),
          some (2 * ps.length)) := by
  induction ps generalizing e frames with
  | nil =>
    rw [show 2 * ([] : List Lob).length + 1 + k = k + 1 by simp; omega, transmit_loop]
    simp [util_frames_outbox, h0, hs, hq, free_leading_empties_all]
  | cons p ps ih =>
    obtain ⟨hp9, hpu⟩ := hps p (List.mem_cons_self _ _)
    have hu : u32 p.raw.length = p.raw.length := by
      simp only [u32, U32] at *; omega
    have hn0 : ¬ p.raw.length = 0 := by omega
    have hn8 : ¬ p.raw.length = 8 := by omega
    obtain ⟨f1, hf1⟩ : ∃ f1 : Frames, f1 = { frames with
        outbox := some p :: ps.map some,
        out := some (le32 frames.magic ++ le32 p.raw.length),
        outlen := 8 } := ⟨_, rfl⟩
    obtain ⟨f2, hf2⟩ : ∃ f2 : Frames, f2 = { frames with
        outbox := some p :: ps.map some,
        out := some p.raw,
        outlen := p.raw.length } := ⟨_, rfl⟩
    obtain ⟨f3, hf3⟩ : ∃ f3 : Frames, f3 = { frames with
        outbox := none :: ps.map some,
        out := none,
        outlen := 0 } := ⟨_, rfl⟩
    have e1 : util_frames_outbox frames
        = (f1, some (le32 frames.magic ++ le32 p.raw.length), 8) := by
      simp [util_frames_outbox, h0, hs, hq, free_leading_empties_replicate, lob_len, hu, hf1]
    have e2 : (util_frames_sent f1).1 = f2 := by
      simp [util_frames_sent, lob_raw, lob_len, hu, hf1, hf2]
    have e3 : util_frames_outbox f2 = (f2, some p.raw, p.raw.length) := by
      simp [util_frames_outbox, hn0, hf2]
    have e4 : (util_frames_sent f2).1 = f3 := by
      simp [util_frames_sent, hn0, hn8, lob_free, hf2, hf3]
    have c1 : chunk (some (le32 frames.magic ++ le32 p.raw.length), 8)
        = le32 frames.magic ++ le32 p.raw.length := by
      simp only [chunk]
      exact List.take_of_length_le (by simp [le32_length])
    have c2 : chunk (some p.raw, p.raw.length) = p.raw := by
      simp only [chunk]
      exact List.take_of_length_le (le_refl _)
    have hrec := ih 1 f3 (fun q hq => hps q (List.mem_cons_of_mem _ hq))
      (by rw [hf3]) (by rw [hf3]) (by rw [hf3]; exact hs) (by rw [hf3]; rfl)
    rw [show 2 * (p :: ps).length + 1 + k = (2 * ps.length + 1 + k) + 1 + 1 by
      simp only [List.length_cons]; omega]
    rw [transmit_loop, e1]
    simp only [e2]
    rw [transmit_loop, e3]
    simp only [e4, hrec, c1, c2, hn0, if_false]
    simp [hf3, hout]
    omega

theorem send_all_eq (ps : List Lob) (frames : Frames) (hs : frames.is_sending = false)
    (hps : ∀ p ∈ ps, 8 ≤ p.raw.length) :
    send_all frames ps = some { frames with outbox := frames.outbox ++ ps.map some } := by
  induction ps generalizing frames with
  | nil => simp [send_all]
  | cons p ps ih =>
    have hp := hps p (List.mem_cons_self _ _)
    have hlt : ¬ lob_len (some p) < 8 := by simp only [lob_len]; omega
    rw [send_all]
    simp only [util_frames_send, hlt, if_false, if_true, qlob_append_eq]
    rw [ih _ rfl (fun q hq => hps q (List.mem_cons_of_mem _ hq))]
    simp [← hs]

/-- Packets of 9 bytes or more, sent to a new state: the transport loop stops
after two advances per packet, the chunks transmitted are each header followed
by its packet, and the state is again the new one. -/
theorem outbound_wire_format_over_8 (magic max : Nat) (ps : List Lob) (k : Nat)
    (hps : ∀ p ∈ ps, 9 ≤ p.raw.length ∧ p.raw.length < U32) :
    ∃ tx, send_all (util_frames_new magic max) ps = some tx ∧
      transmit_loop (2 * ps.length + 1 + k) tx
        = (util_frames_new magic max,
            ps.flatMap (fun p => [le32 (u32 magic) ++ le32 p.raw.length, p.raw]),
            some (2 * ps.length)) := by
  refine ⟨_, send_all_eq ps _ rfl (fun p hp => by have := (hps p hp).1; omega), ?_⟩
  exact transmit_loop_all ps 0 k _ hps rfl rfl rfl rfl

/-! ## Claims -/

/-- C1. One 12-byte packet, sync `0xABCD1234`, bound `1024`: the sender's loop
emits the header and the packet and stops after two advances; the stream
delivered in one call is received as the packet; delivered as its first 4
bytes and then the other 16, the second call reads sync and length at the
start of its own buffer, rejects the header and latches the error, so receive
returns nothing; delivered one byte per call, the eighth call reads past its
one-byte buffer. -/
theorem round_trip_fails_when_header_is_split :
    (send_all (util_frames_new 0xABCD1234 1024)
        [⟨[1, 2, 3, 4, 5, 6, 7, 8, 9, 10, 11, 12]⟩]).map (fun tx => (transmit_loop 3 tx).2)
      = some ([[0x34, 0x12, 0xCD, 0xAB, 12, 0, 0, 0],
                [1, 2, 3, 4, 5, 6, 7, 8, 9, 10, 11, 12]], some 2) ∧
    (feed_chunks (util_frames_new 0xABCD1234 1024)
        [[0x34, 0x12, 0xCD, 0xAB, 12, 0, 0, 0, 1, 2, 3, 4, 5, 6, 7, 8, 9, 10, 11, 12]]).map
        (fun rx => (receive_many 2 rx).2)
      = some [some ⟨[1, 2, 3, 4, 5, 6, 7, 8, 9, 10, 11, 12]⟩, none] ∧
    (feed_chunks (util_frames_new 0xABCD1234 1024)
        [[0x34, 0x12, 0xCD, 0xAB],
         [12, 0, 0, 0, 1, 2, 3, 4, 5, 6, 7, 8, 9, 10, 11, 12]]).map
        (fun rx => ((receive_many 1 rx).2, util_frames_ok rx))
      = some ([none], false) ∧
    feed_chunks (util_frames_new 0xABCD1234 1024)
        ([0x34, 0x12, 0xCD, 0xAB, 12, 0, 0, 0, 1, 2, 3, 4, 5, 6, 7, 8, 9, 10, 11, 12].map
          (fun b => [b]))
      = none := by
  decide

/-- C2. A packet of exactly 8 bytes is accepted by `util_frames_send`; the
first peek returns its header and the first advance puts its 8 bytes in
flight, which the second peek returns; the second advance finds `outlen = 8`,
takes the header branch again and does not finish: it reports that bytes
remain, `outlen` is still 8, the head slot still holds the packet, the state
is still pending, and the third peek returns length 8 instead of empty. -/
theorem transmit_of_8_bytes_not_finished (magic max : Nat) (p : Lob)
    (h : p.raw.length = 8) :
    (util_frames_send (util_frames_new magic max) (some p)).2 = true ∧
    (util_frames_outbox (util_frames_send (util_frames_new magic max) (some p)).1).2
      = (some (le32 (u32 magic) ++ le32 8), 8) ∧
    (util_frames_sent (util_frames_outbox
      (util_frames_send (util_frames_new magic max) (some p)).1).1).2 = true ∧
    (util_frames_outbox (util_frames_sent (util_frames_outbox
      (util_frames_send (util_frames_new magic max) (some p)).1).1).1).2
      = (some p.raw, 8) ∧
    (util_frames_sent (util_frames_outbox (util_frames_sent (util_frames_outbox
      (util_frames_send (util_frames_new magic max) (some p)).1).1).1).1).2 = true ∧
    (util_frames_sent (util_frames_outbox (util_frames_sent (util_frames_outbox
      (util_frames_send (util_frames_new magic max) (some p)).1).1).1).1).1.outlen = 8 ∧
    (util_frames_sent (util_frames_outbox (util_frames_sent (util_frames_outbox
      (util_frames_send (util_frames_new magic max) (some p)).1).1).1).1).1.outbox.map
        Option.isSome = [true] ∧
    util_frames_pending (util_frames_sent (util_frames_outbox (util_frames_sent
      (util_frames_outbox
        (util_frames_send (util_frames_new magic max) (some p)).1).1).1).1).1 = true ∧
    (util_frames_outbox (util_frames_sent (util_frames_outbox (util_frames_sent
      (util_frames_outbox
        (util_frames_send (util_frames_new magic max) (some p)).1).1).1).1).1).2.2 = 8 := by
  obtain ⟨f1, hf1⟩ : ∃ f1 : Frames, f1 = { util_frames_new magic max with
      outbox := [some p] } := ⟨_, rfl⟩
  obtain ⟨f2, hf2⟩ : ∃ f2 : Frames, f2 = { util_frames_new magic max with
      outbox := [some p],
      out := some (le32 (u32 magic) ++ le32 8),
      outlen := 8 } := ⟨_, rfl⟩
  obtain ⟨f3, hf3⟩ : ∃ f3 : Frames, f3 = { util_frames_new magic max with
      outbox := [some p],
      out := some p.raw,
      outlen := 8 } := ⟨_, rfl⟩
  have hq : qlob_total [some p] = 8 := by
    simp [qlob_total, lob_len, h, u32_8]
  have e1 : util_frames_send (util_frames_new magic max) (some p) = (f1, true) := by
    simp [util_frames_send, lob_len, h, util_frames_new, qlob_append, hf1]
  have e2 : util_frames_outbox f1 = (f2, some (le32 (u32 magic) ++ le32 8), 8) := by
    simp [util_frames_outbox, util_frames_new, free_leading_empties, lob_len, h, u32_8,
      hf1, hf2]
  have e3 : util_frames_sent f2 = (f3, true) := by
    simp [util_frames_sent, util_frames_new, lob_len, lob_raw, h, u32_8, hf2, hf3,
      util_frames_outlen, hq]
  have e4 : util_frames_outbox f3 = (f3, some p.raw, 8) := by
    simp [util_frames_outbox, util_frames_new, hf3]
  have e5 : util_frames_sent f3 = (f3, true) := by
    simp [util_frames_sent, util_frames_new, lob_len, lob_raw, h, u32_8, hf3,
      util_frames_outlen, hq]
  rw [e1]; dsimp only
  rw [e2]; dsimp only
  rw [e3]; dsimp only
  rw [e4]; dsimp only
  rw [e5]; dsimp only
  rw [e4]
  refine ⟨rfl, rfl, rfl, rfl, rfl, by rw [hf3], by rw [hf3]; rfl, ?_, rfl⟩
  simp [util_frames_pending, util_frames_outlen, hf3, hq]

theorem transmit_of_8_bytes_not_finished_witness :
    (⟨[1, 2, 3, 4, 5, 6, 7, 8]⟩ : Lob).raw.length = 8 ∧
    (util_frames_outbox (util_frames_sent (util_frames_outbox
      (util_frames_send (util_frames_new 0xABCD1234 1024)
        (some ⟨[1, 2, 3, 4, 5, 6, 7, 8]⟩)).1).1).1).2
      = (some [1, 2, 3, 4, 5, 6, 7, 8], 8) ∧
    (util_frames_sent (util_frames_outbox (util_frames_sent (util_frames_outbox
      (util_frames_send (util_frames_new 0xABCD1234 1024)
        (some ⟨[1, 2, 3, 4, 5, 6, 7, 8]⟩)).1).1).1).1).1.outlen = 8 ∧
    (util_frames_outbox (util_frames_sent (util_frames_outbox (util_frames_sent
      (util_frames_outbox
        (util_frames_send (util_frames_new 0xABCD1234 1024)
          (some ⟨[1, 2, 3, 4, 5, 6, 7, 8]⟩)).1).1).1).1).1).2.2 = 8 :=
  ⟨rfl,
    (transmit_of_8_bytes_not_finished 0xABCD1234 1024 ⟨[1, 2, 3, 4, 5, 6, 7, 8]⟩ rfl).2.2.2.1,
    (transmit_of_8_bytes_not_finished 0xABCD1234 1024
      ⟨[1, 2, 3, 4, 5, 6, 7, 8]⟩ rfl).2.2.2.2.2.1,
    (transmit_of_8_bytes_not_finished 0xABCD1234 1024
      ⟨[1, 2, 3, 4, 5, 6, 7, 8]⟩ rfl).2.2.2.2.2.2.2.2⟩

/-- C3. With no inbound frame in progress, one call delivering the header
(configured sync, length 8) followed by 8 payload bytes appends no packet: the
payload is parsed as a header, so the inbox is as before and the state is the
one a header made of the payload bytes produces (rejected and latched, or a
new target length). -/
theorem payload_of_8_bytes_taken_for_header (frames : Frames) (payload : List Byte)
    (hin : frames.inlen = 0) (hm : frames.magic < U32) (hmax : 8 ≤ frames.max)
    (hp : payload.length = 8) :
    ∃ f ok, util_frames_inbox frames (le32 frames.magic ++ le32 8 ++ payload) 16
        = Outcome.ret f ok ∧
      f.inbox = frames.inbox ∧
      f = if rd32 (payload.take 4) ≠ frames.magic ∨ rd32 ((payload.drop 4).take 4) > frames.max
          then { frames with in_ := none, inlen := 0, inat := 0, inbox_err := true }
          else { frames with in_ := some (malloc (rd32 ((payload.drop 4).take 4))),
                             inlen := rd32 ((payload.drop 4).take 4), inat := 0,
                             inbox_err := false } := by
  have h1 : List.take 4 (le32 frames.magic ++ le32 8 ++ payload) = le32 frames.magic := by
    rw [List.append_assoc, List.take_left' (le32_length _)]
  have h2 : List.take 4 (List.drop 4 (le32 frames.magic ++ le32 8 ++ payload)) = le32 8 := by
    rw [List.append_assoc, List.drop_left' (le32_length _), List.take_left' (le32_length _)]
  have h3 : List.drop 8 (le32 frames.magic ++ le32 8 ++ payload) = payload :=
    List.drop_left' (by simp [le32_length])
  have hl : (le32 frames.magic ++ le32 8 ++ payload).length = 16 := by
    simp [le32_length, hp]
  have h8 : rd32 (le32 8) = 8 := by decide
  have hok : ¬ (rd32 (le32 frames.magic) ≠ frames.magic ∨ 8 > frames.max) := by
    rw [rd32_le32 _ hm]; simp; omega
  have s1 := inbox_go_header 16 frames (le32 frames.magic ++ le32 8 ++ payload) 16
    (Or.inl hin) (by omega) (by omega)
  rw [h1, h2, h3, h8, if_neg hok, if_pos (by omega)] at s1
  have s2 := inbox_go_header 15 (header_accepted frames 8) payload 8
    (Or.inr ⟨rfl, rfl, malloc 8, rfl, by simp [malloc]⟩) (le_refl 8) (by omega)
  rw [if_neg (lt_irrefl 8)] at s2
  unfold util_frames_inbox
  rw [s1, s2]
  by_cases hb : rd32 (payload.take 4) ≠ frames.magic ∨ rd32 ((payload.drop 4).take 4) > frames.max
  · have hb' : rd32 (payload.take 4) ≠ (header_accepted frames 8).magic ∨
        rd32 ((payload.drop 4).take 4) > (header_accepted frames 8).max := hb
    rw [if_pos hb', if_pos hb]
    exact ⟨_, _, rfl, rfl, rfl⟩
  · have hb' : ¬ (rd32 (payload.take 4) ≠ (header_accepted frames 8).magic ∨
        rd32 ((payload.drop 4).take 4) > (header_accepted frames 8).max) := hb
    rw [if_neg hb', if_neg hb]
    exact ⟨_, _, rfl, rfl, rfl⟩

theorem payload_of_8_bytes_taken_for_header_witness :
    (util_frames_new 0xABCD1234 1024).inlen = 0 ∧ (util_frames_new 0xABCD1234 1024).magic < U32 ∧
    8 ≤ (util_frames_new 0xABCD1234 1024).max ∧
    ([1, 2, 3, 4, 5, 6, 7, 8] : List Byte).length = 8 ∧
    ∃ f ok,
      util_frames_inbox (util_frames_new 0xABCD1234 1024)
          (le32 (util_frames_new 0xABCD1234 1024).magic ++ le32 8 ++ [1, 2, 3, 4, 5, 6, 7, 8]) 16
        = Outcome.ret f ok ∧ f.inbox = [] :=
  ⟨rfl, by decide, by decide, rfl,
    (payload_of_8_bytes_taken_for_header (util_frames_new 0xABCD1234 1024)
      [1, 2, 3, 4, 5, 6, 7, 8] rfl (by decide) (by decide) rfl).imp
      (fun _ hf => hf.imp (fun _ hok => ⟨hok.1, hok.2.1⟩))⟩

/-- C4. The header (sync `0xABCD1234`, length 12) fed in one 8-byte call is
accepted with target length 12; fed as 4 bytes and then its last 4 bytes
followed by 8 further bytes it is rejected, because sync and length are read
from the start of the last call's buffer; fed as 4 bytes and then exactly its
last 4 bytes, that read leaves the 4-byte buffer. -/
theorem split_header_parsed_from_last_chunk :
    feed_chunks (util_frames_new 0xABCD1234 1024) [[0x34, 0x12, 0xCD, 0xAB, 12, 0, 0, 0]]
      = some (header_accepted (util_frames_new 0xABCD1234 1024) 12) ∧
    feed_chunks (util_frames_new 0xABCD1234 1024)
        [[0x34, 0x12, 0xCD, 0xAB], [12, 0, 0, 0, 0, 0, 0, 0, 0, 0, 0, 0]]
      = some (header_rejected (util_frames_new 0xABCD1234 1024)) ∧
    feed_chunks (util_frames_new 0xABCD1234 1024)
        [[0x34, 0x12, 0xCD, 0xAB], [12, 0, 0, 0]]
      = none := by
  decide

/-- C5. When no inbound frame is in progress and 8 bytes arrive in one call,
the latch is set afterwards (and `util_frames_ok` fails, and the call reports
failure) exactly when the sync field differs from the configured one or the
length field exceeds the bound; the state is then the old one with no inbound
buffer, `inlen = inat = 0` and the latch set (the inbox as it was); otherwise
it is the old one with the latch clear, a payload buffer of the declared
length, `inlen` the declared length and `inat = 0`. -/
theorem header_validation (frames : Frames) (h : List Byte) (hlen : h.length = 8)
    (hin : frames.inlen = 0) :
    ∃ f ok, util_frames_inbox frames h 8 = Outcome.ret f ok ∧
      (f.inbox_err = true ↔
        (rd32 (h.take 4) ≠ frames.magic ∨ rd32 ((h.drop 4).take 4) > frames.max)) ∧
      (util_frames_ok f = false ↔
        (rd32 (h.take 4) ≠ frames.magic ∨ rd32 ((h.drop 4).take 4) > frames.max)) ∧
      (ok = false ↔
        (rd32 (h.take 4) ≠ frames.magic ∨ rd32 ((h.drop 4).take 4) > frames.max)) ∧
      f = if rd32 (h.take 4) ≠ frames.magic ∨ rd32 ((h.drop 4).take 4) > frames.max then
            { frames with in_ := none, inlen := 0, inat := 0, inbox_err := true }
          else
            { frames with in_ := some (malloc (rd32 ((h.drop 4).take 4))),
                          inlen := rd32 ((h.drop 4).take 4), inat := 0,
                          inbox_err := false } := by
  have hstep := inbox_go_header 8 frames h 8 (Or.inl hin) (le_refl 8) (by omega)
  by_cases hb : rd32 (h.take 4) ≠ frames.magic ∨ rd32 ((h.drop 4).take 4) > frames.max
  · rw [if_pos hb] at hstep
    exact ⟨_, _, hstep, by simp [header_rejected, hb],
      by simp [util_frames_ok, header_rejected, hb], by simp [hb],
      by simp [header_rejected, hb]⟩
  · rw [if_neg hb, if_neg (by omega)] at hstep
    exact ⟨_, _, hstep, by simp [header_accepted, hb],
      by simp [util_frames_ok, header_accepted, hb], by simp [hb],
      by simp [header_accepted, hb]⟩

theorem header_validation_witness :
    ([1, 0, 0, 0, 5, 0, 0, 0] : List Byte).length = 8 ∧ (util_frames_new 1 16).inlen = 0 ∧
    ∃ f ok, util_frames_inbox (util_frames_new 1 16) [1, 0, 0, 0, 5, 0, 0, 0] 8
        = Outcome.ret f ok ∧
      (f.inbox_err = true ↔
        (rd32 (([1, 0, 0, 0, 5, 0, 0, 0] : List Byte).take 4) ≠ (util_frames_new 1 16).magic ∨
          rd32 ((([1, 0, 0, 0, 5, 0, 0, 0] : List Byte).drop 4).take 4)
            > (util_frames_new 1 16).max)) ∧
      (util_frames_ok f = false ↔
        (rd32 (([1, 0, 0, 0, 5, 0, 0, 0] : List Byte).take 4) ≠ (util_frames_new 1 16).magic ∨
          rd32 ((([1, 0, 0, 0, 5, 0, 0, 0] : List Byte).drop 4).take 4)
            > (util_frames_new 1 16).max)) ∧
      (ok = false ↔
        (rd32 (([1, 0, 0, 0, 5, 0, 0, 0] : List Byte).take 4) ≠ (util_frames_new 1 16).magic ∨
          rd32 ((([1, 0, 0, 0, 5, 0, 0, 0] : List Byte).drop 4).take 4)
            > (util_frames_new 1 16).max)) ∧
      f = if rd32 (([1, 0, 0, 0, 5, 0, 0, 0] : List Byte).take 4) ≠ (util_frames_new 1 16).magic ∨
              rd32 ((([1, 0, 0, 0, 5, 0, 0, 0] : List Byte).drop 4).take 4)
                > (util_frames_new 1 16).max then
            { util_frames_new 1 16 with in_ := none, inlen := 0, inat := 0, inbox_err := true }
          else
            { util_frames_new 1 16 with
                in_ := some (malloc (rd32 ((([1, 0, 0, 0, 5, 0, 0, 0] : List Byte).drop 4).take 4))),
                inlen := rd32 ((([1, 0, 0, 0, 5, 0, 0, 0] : List Byte).drop 4).take 4),
                inat := 0, inbox_err := false } :=
  ⟨rfl, rfl, header_validation (util_frames_new 1 16) [1, 0, 0, 0, 5, 0, 0, 0] rfl rfl⟩

/-- C6, the claim as stated fails: in a state whose latch is set, one
`util_frames_inbox` call delivering a well-formed frame clears the latch and
appends the packet to the inbox. -/
theorem latch_cleared_by_next_header :
    util_frames_ok { util_frames_new 0xABCD1234 1024 with inbox_err := true } = false ∧
    run { util_frames_new 0xABCD1234 1024 with inbox_err := true }
        [Op.inbox [0x34, 0x12, 0xCD, 0xAB, 9, 0, 0, 0, 1, 2, 3, 4, 5, 6, 7, 8, 9]]
      = some ({ util_frames_new 0xABCD1234 1024 with
                  inbox := [some ⟨[1, 2, 3, 4, 5, 6, 7, 8, 9]⟩] }, []) ∧
    util_frames_ok { util_frames_new 0xABCD1234 1024 with
                  inbox := [some ⟨[1, 2, 3, 4, 5, 6, 7, 8, 9]⟩] } = true := by
  decide

/-- C7. A second `util_frames_outbox` call right after a first one returns the
same view (pointer content and length) and leaves the state as the first call
left it. -/
theorem peek_idempotent (frames : Frames) :
    util_frames_outbox (util_frames_outbox frames).1 = util_frames_outbox frames := by
  unfold util_frames_outbox
  by_cases h : frames.outlen = 0
  · simp only [h, if_true]
    cases hq : free_leading_empties frames.is_sending frames.outbox with
    | nil => simp [h, hq, free_leading_empties]
    | cons q rest => simp
  · simp [h]

/-- C8. With sync `0xABCD1234` and bound `1024`, after sending a 20-byte packet
the first peek is the 8-byte header (sync, then the value 20), the first
advance reports that bytes remain and makes the next peek the 20 bytes of the
packet, and the second advance ends the transmission: nothing is pending and
peek returns empty. -/
theorem scenario_20_bytes (p : Lob) (h : p.raw.length = 20) :
    (util_frames_send (util_frames_new 0xABCD1234 1024) (some p)).2 = true ∧
    (util_frames_outbox
      (util_frames_send (util_frames_new 0xABCD1234 1024) (some p)).1).2
      = (some [0x34, 0x12, 0xCD, 0xAB, 20, 0, 0, 0], 8) ∧
    [0x34, 0x12, 0xCD, 0xAB, 20, 0, 0, 0] = le32 0xABCD1234 ++ le32 20 ∧
    (util_frames_sent (util_frames_outbox
      (util_frames_send (util_frames_new 0xABCD1234 1024) (some p)).1).1).2 = true ∧
    (util_frames_outbox (util_frames_sent (util_frames_outbox
      (util_frames_send (util_frames_new 0xABCD1234 1024) (some p)).1).1).1).2
      = (some p.raw, 20) ∧
    (util_frames_sent (util_frames_outbox (util_frames_sent (util_frames_outbox
      (util_frames_send (util_frames_new 0xABCD1234 1024) (some p)).1).1).1).1).2 = false ∧
    util_frames_pending (util_frames_sent (util_frames_outbox (util_frames_sent
      (util_frames_outbox
        (util_frames_send (util_frames_new 0xABCD1234 1024) (some p)).1).1).1).1).1 = false ∧
    (util_frames_outbox (util_frames_sent (util_frames_outbox (util_frames_sent
      (util_frames_outbox
        (util_frames_send (util_frames_new 0xABCD1234 1024) (some p)).1).1).1).1).1).2
      = (none, 0) := by
  have e1 : util_frames_send (util_frames_new 0xABCD1234 1024) (some p)
      = ({ util_frames_new 0xABCD1234 1024 with outbox := [some p] }, true) := by
    simp [util_frames_send, lob_len, h, util_frames_new, qlob_append]
  have e2 : util_frames_outbox { util_frames_new 0xABCD1234 1024 with outbox := [some p] }
      = ({ util_frames_new 0xABCD1234 1024 with
            outbox := [some p], out := some [0x34, 0x12, 0xCD, 0xAB, 20, 0, 0, 0],
            outlen := 8 }, some [0x34, 0x12, 0xCD, 0xAB, 20, 0, 0, 0], 8) := by
    simp [util_frames_outbox, util_frames_new, free_leading_empties, lob_len, h]
    decide
  have e3 : util_frames_sent { util_frames_new 0xABCD1234 1024 with
            outbox := [some p], out := some [0x34, 0x12, 0xCD, 0xAB, 20, 0, 0, 0],
            outlen := 8 }
      = ({ util_frames_new 0xABCD1234 1024 with
            outbox := [some p], out := some p.raw, outlen := 20 }, true) := by
    simp [util_frames_sent, util_frames_new, lob_len, lob_raw, h, util_frames_outlen,
      qlob_total, u32, U32]
  have e4 : util_frames_outbox { util_frames_new 0xABCD1234 1024 with
            outbox := [some p], out := some p.raw, outlen := 20 }
      = ({ util_frames_new 0xABCD1234 1024 with
            outbox := [some p], out := some p.raw, outlen := 20 }, some p.raw, 20) := by
    simp [util_frames_outbox, util_frames_new]
  have e5 : util_frames_sent { util_frames_new 0xABCD1234 1024 with
            outbox := [some p], out := some p.raw, outlen := 20 }
      = ({ util_frames_new 0xABCD1234 1024 with outbox := [none] }, false) := by
    simp [util_frames_sent, util_frames_new, lob_len, lob_free, util_frames_outlen,
      qlob_total, u32, U32]
  have e6 : util_frames_outbox { util_frames_new 0xABCD1234 1024 with outbox := [none] }
      = (util_frames_new 0xABCD1234 1024, none, 0) := by
    simp [util_frames_outbox, util_frames_new, free_leading_empties]
  rw [e1]; dsimp only
  rw [e2]; dsimp only
  rw [e3]; dsimp only
  rw [e4]; dsimp only
  rw [e5]; dsimp only
  rw [e6]
  refine ⟨rfl, rfl, by decide, rfl, rfl, rfl, ?_, rfl⟩
  simp [util_frames_pending, util_frames_outlen, qlob_total, util_frames_new, lob_len, u32]

theorem scenario_20_bytes_witness :
    (⟨List.replicate 20 7⟩ : Lob).raw.length = 20 ∧
    (util_frames_send (util_frames_new 0xABCD1234 1024)
      (some ⟨List.replicate 20 7⟩)).2 = true ∧
    (util_frames_outbox
      (util_frames_send (util_frames_new 0xABCD1234 1024) (some ⟨List.replicate 20 7⟩)).1).2
      = (some [0x34, 0x12, 0xCD, 0xAB, 20, 0, 0, 0], 8) :=
  ⟨rfl, (scenario_20_bytes ⟨List.replicate 20 7⟩ rfl).1,
   (scenario_20_bytes ⟨List.replicate 20 7⟩ rfl).2.1⟩

/-- C9. `util_frames_send` fails exactly when the packet is shorter than 8
bytes and then leaves the state as it was; otherwise it succeeds and the state
differs from the old one only in the outbox, which gets one slot holding the
packet after its last slot, and in the sending guard, which is clear. -/
theorem send_accepts_iff_at_least_8 (frames : Frames) (p : Lob) :
    ((util_frames_send frames (some p)).2 = false ↔ p.raw.length < 8) ∧
    ((util_frames_send frames (some p)).2 = true ↔ 8 ≤ p.raw.length) ∧
    (util_frames_send frames (some p)).1
      = if p.raw.length < 8 then frames
        else { frames with outbox := frames.outbox ++ [some p], is_sending := false } := by
  by_cases h : p.raw.length < 8
  · simp [util_frames_send, lob_len, h]
  · simp [util_frames_send, lob_len, h, qlob_append_eq]
    omega

/-- C10. When the inbox is `n` empty slots, a slot holding `p`, and further
slots, `util_frames_receive` returns `p` and changes only that slot, which
becomes empty and stays linked, and the receiving guard, which is clear; and
`k` successive calls return the first `k` held packets in queue order (then
nothing). -/
theorem receive_fifo (frames : Frames) (n : Nat) (p : Lob) (post : Qlob)
    (h : frames.inbox = List.replicate n none ++ some p :: post) (k : Nat) :
    util_frames_receive frames
      = ({ frames with inbox := List.replicate n none ++ none :: post,
                       is_receiving := false }, some p) ∧
    (receive_many k frames).2
      = ((held frames.inbox).take k).map some
          ++ List.replicate (k - (held frames.inbox).length) none := by
  refine ⟨?_, receive_many_snd k frames⟩
  simp only [util_frames_receive, h, receive_scan_replicate]

theorem receive_fifo_witness :
    util_frames_receive
        { util_frames_new 7 64 with inbox := [none, some ⟨[1, 2]⟩, none, some ⟨[3]⟩] }
      = ({ util_frames_new 7 64 with inbox := [none, none, none, some ⟨[3]⟩] },
          some ⟨[1, 2]⟩) ∧
    (receive_many 3
        { util_frames_new 7 64 with inbox := [none, some ⟨[1, 2]⟩, none, some ⟨[3]⟩] }).2
      = [some ⟨[1, 2]⟩, some ⟨[3]⟩, none] :=
  receive_fifo { util_frames_new 7 64 with inbox := [none, some ⟨[1, 2]⟩, none, some ⟨[3]⟩] }
    1 ⟨[1, 2]⟩ [none, some ⟨[3]⟩] rfl 3

/-! ## Queued bytes -/

theorem queued_bytes_held (q : Qlob) : queued_bytes q = ((held q).map (fun p => p.raw.length)).sum := by
  induction q with
  | nil => rfl
  | cons s rest ih =>
    cases s with
    | none => simpa [queued_bytes, held, lob_len] using ih
    | some p => simpa [queued_bytes, held, lob_len] using ih

theorem qlob_total_foldl (q : Qlob) (acc : Nat) (hacc : acc < U32) :
    q.foldl (fun total s => u32 (total + lob_len s)) acc = (acc + queued_bytes q) % U32 := by
  induction q generalizing acc with
  | nil => simp [queued_bytes, Nat.mod_eq_of_lt hacc]
  | cons s rest ih =>
    have hlt : u32 (acc + lob_len s) < U32 := Nat.mod_lt _ (by decide)
    rw [List.foldl_cons, ih _ hlt]
    simp only [queued_bytes, List.map_cons, List.sum_cons, u32, U32]
    omega

theorem qlob_total_eq (q : Qlob) : qlob_total q = queued_bytes q % U32 := by
  have h := qlob_total_foldl q 0 (by decide)
  simpa [qlob_total] using h

theorem busy_iff_mod (frames : Frames) :
    util_frames_busy frames = true ↔
      (queued_bytes frames.inbox + queued_bytes frames.outbox) % U32 ≠ 0 := by
  simp only [util_frames_busy, util_frames_inlen, util_frames_outlen, qlob_total_eq, u32,
    decide_eq_true_eq, U32]
  omega

theorem queued_bytes_of_held_nil (q : Qlob) (h : held q = []) : queued_bytes q = 0 := by
  rw [queued_bytes_held, h]; rfl

theorem receive_scan_snd_of_held_nil (q : Qlob) (h : held q = []) : (receive_scan q).2 = q := by
  induction q with
  | nil => rfl
  | cons s rest ih =>
    cases s with
    | none =>
      have hr : held rest = [] := by simpa [held] using h
      simp [receive_scan, ih hr]
    | some p => simp [held] at h

theorem free_leading_empties_of_held_nil (q : Qlob) (h : held q = []) :
    free_leading_empties false q = [] := by
  induction q with
  | nil => rfl
  | cons s rest ih =>
    cases s with
    | none =>
      have hr : held rest = [] := by simpa [held] using h
      simpa [free_leading_empties] using ih hr
    | some p => simp [held] at h

theorem held_nil_of_free_leading_empties (g : Bool) (q : Qlob)
    (h : free_leading_empties g q = []) : held q = [] := by
  induction q with
  | nil => rfl
  | cons s rest ih =>
    cases s with
    | some p => simp [free_leading_empties] at h
    | none =>
      cases g with
      | true => simp [free_leading_empties] at h
      | false =>
        have hr : free_leading_empties false rest = [] := by
          simpa [free_leading_empties] using h
        simpa [held] using ih hr

theorem outbox_returns_empty (s : Frames) (hp : (util_frames_outbox s).2.2 = 0) :
    s.outlen = 0 ∧ held s.outbox = [] ∧
      (util_frames_outbox s).1 = { s with outbox := [] } := by
  unfold util_frames_outbox at hp ⊢
  by_cases h0 : s.outlen = 0
  · simp only [h0, if_true] at hp ⊢
    cases hq : free_leading_empties s.is_sending s.outbox with
    | nil =>
      refine ⟨trivial, held_nil_of_free_leading_empties _ _ hq, ?_⟩
      simp only [hq]
    | cons q rest =>
      rw [hq] at hp
      simp at hp
  · simp only [h0, if_false] at hp

theorem held_nil_of_receive_none (q : Qlob) (h : (receive_scan q).1 = none) : held q = [] := by
  rw [receive_scan_fst] at h
  cases hq : held q with
  | nil => rfl
  | cons p ps => rw [hq] at h; simp at h

theorem busy_false_of_mod (frames : Frames)
    (h : (queued_bytes frames.inbox + queued_bytes frames.outbox) % U32 = 0) :
    util_frames_busy frames = false := by
  cases hb : util_frames_busy frames with
  | false => rfl
  | true => exact absurd h ((busy_iff_mod frames).1 hb)

theorem busy_two_packets (n : Nat) :
    queued_bytes (Frames.mk 7 64 none 0 0 none 0 []
        [some ⟨List.replicate n 0⟩, some ⟨List.replicate n 0⟩] false false false).inbox
      + queued_bytes (Frames.mk 7 64 none 0 0 none 0 []
        [some ⟨List.replicate n 0⟩, some ⟨List.replicate n 0⟩] false false false).outbox
      = n + n ∧
    ((n + n) % U32 = 0 →
      util_frames_busy (Frames.mk 7 64 none 0 0 none 0 []
        [some ⟨List.replicate n 0⟩, some ⟨List.replicate n 0⟩] false false false) = false) := by
  have hq : queued_bytes (Frames.mk 7 64 none 0 0 none 0 []
        [some ⟨List.replicate n 0⟩, some ⟨List.replicate n 0⟩] false false false).inbox
      + queued_bytes (Frames.mk 7 64 none 0 0 none 0 []
        [some ⟨List.replicate n 0⟩, some ⟨List.replicate n 0⟩] false false false).outbox
      = n + n := by
    simp only [queued_bytes, List.map_cons, List.map_nil, List.sum_cons, List.sum_nil, lob_len,
      List.length_replicate]
    omega
  exact ⟨hq, fun h => busy_false_of_mod _ (by rw [hq]; exact h)⟩

/-! ## Claims on the queries, the reset and the byte totals -/

/-- C11, the claim as stated fails when a guard is set: `util_frames_receive`
on an inbox without packets clears a receiving guard that was set, so the
state is not the one before; and with the sending guard set, nothing in flight
and an outbox made of one empty slot, `util_frames_outbox` does not prune the
slot and returns an 8-byte header announcing length 0. -/
theorem empty_queries_with_guard_set :
    held (Frames.mk 7 64 none 0 0 none 0 [] [] true false false).inbox = [] ∧
    (util_frames_receive (Frames.mk 7 64 none 0 0 none 0 [] [] true false false)).1
      ≠ Frames.mk 7 64 none 0 0 none 0 [] [] true false false ∧
    (Frames.mk 7 64 none 0 0 none 0 [] [none] false true false).outlen = 0 ∧
    held (Frames.mk 7 64 none 0 0 none 0 [] [none] false true false).outbox = [] ∧
    (util_frames_outbox (Frames.mk 7 64 none 0 0 none 0 [] [none] false true false)).2
      = (some [7, 0, 0, 0, 0, 0, 0, 0], 8) := by
  decide

/-- C11, amended. When the inbox holds no packet, `util_frames_receive`
returns nothing and changes no field other than the receiving guard, which is
clear afterwards, and any number of repeated calls return nothing; when
nothing is in flight, the outbox holds no packet, and the sending guard is
clear or the outbox has no slot, `util_frames_outbox` returns no pointer and
length 0. -/
theorem empty_queries (frames g : Frames) (k : Nat)
    (hin : held frames.inbox = [])
    (hout : g.outlen = 0) (hq : held g.outbox = [])
    (hs : g.is_sending = false ∨ g.outbox = []) :
    util_frames_receive frames = ({ frames with is_receiving := false }, none) ∧
    (receive_many k frames).2 = List.replicate k none ∧
    (util_frames_outbox g).2 = (none, 0) := by
  refine ⟨?_, ?_, ?_⟩
  · simp only [util_frames_receive, receive_scan_fst, hin, receive_scan_snd_of_held_nil _ hin]
    rfl
  · rw [receive_many_snd, hin]
    simp
  · rcases hs with hs | hs
    · simp only [util_frames_outbox, hout, if_true, hs,
        free_leading_empties_of_held_nil _ hq]
    · simp only [util_frames_outbox, hout, if_true, hs, free_leading_empties]

theorem empty_queries_witness :
    held (Frames.mk 7 64 none 0 0 none 0 [none, none] [] false false false).inbox = [] ∧
    (Frames.mk 7 64 none 0 0 none 0 [] [none] false false false).outlen = 0 ∧
    held (Frames.mk 7 64 none 0 0 none 0 [] [none] false false false).outbox = [] ∧
    ((Frames.mk 7 64 none 0 0 none 0 [] [none] false false false).is_sending = false ∨
      (Frames.mk 7 64 none 0 0 none 0 [] [none] false false false).outbox = []) ∧
    util_frames_receive (Frames.mk 7 64 none 0 0 none 0 [none, none] [] false false false)
      = (Frames.mk 7 64 none 0 0 none 0 [none, none] [] false false false, none) ∧
    (receive_many 3 (Frames.mk 7 64 none 0 0 none 0 [none, none] [] false false false)).2
      = List.replicate 3 none ∧
    (util_frames_outbox (Frames.mk 7 64 none 0 0 none 0 [] [none] false false false)).2
      = (none, 0) :=
  ⟨rfl, rfl, rfl, Or.inl rfl,
    empty_queries (Frames.mk 7 64 none 0 0 none 0 [none, none] [] false false false)
      (Frames.mk 7 64 none 0 0 none 0 [] [none] false false false) 3 rfl rfl rfl
      (Or.inl rfl)⟩

/-- C12. `util_frames_clear` leaves no inbound buffer, `inlen = inat = 0` and
the latch clear (`util_frames_ok` succeeds), and every other field (`out`,
`outlen`, both queues, `magic`, `max`, both guards) as it was. -/
theorem clear_resets_inbound_only (frames : Frames) :
    (util_frames_clear frames).in_ = none ∧
    (util_frames_clear frames).inlen = 0 ∧
    (util_frames_clear frames).inat = 0 ∧
    (util_frames_clear frames).inbox_err = false ∧
    util_frames_ok (util_frames_clear frames) = true ∧
    (util_frames_clear frames).out = frames.out ∧
    (util_frames_clear frames).outlen = frames.outlen ∧
    (util_frames_clear frames).outbox = frames.outbox ∧
    (util_frames_clear frames).inbox = frames.inbox ∧
    (util_frames_clear frames).magic = frames.magic ∧
    (util_frames_clear frames).max = frames.max ∧
    (util_frames_clear frames).is_sending = frames.is_sending ∧
    (util_frames_clear frames).is_receiving = frames.is_receiving :=
  ⟨rfl, rfl, rfl, rfl, rfl, rfl, rfl, rfl, rfl, rfl, rfl, rfl, rfl⟩

/-- C13. With nothing in flight (`outlen = 0`), `util_frames_sent` reports
failure and returns the state as it was. -/
theorem sent_without_chunk_rejected (frames : Frames) (h : frames.outlen = 0) :
    util_frames_sent frames = (frames, false) := by
  unfold util_frames_sent
  split
  · rfl
  · simp only [h, if_true]

theorem sent_without_chunk_rejected_witness :
    (Frames.mk 7 64 none 0 0 none 0 [] [some ⟨[1, 2, 3, 4, 5, 6, 7, 8, 9]⟩]
      false false false).outlen = 0 ∧
    util_frames_sent (Frames.mk 7 64 none 0 0 none 0 [] [some ⟨[1, 2, 3, 4, 5, 6, 7, 8, 9]⟩]
      false false false)
      = (Frames.mk 7 64 none 0 0 none 0 [] [some ⟨[1, 2, 3, 4, 5, 6, 7, 8, 9]⟩]
          false false false, false) :=
  ⟨rfl, sent_without_chunk_rejected _ rfl⟩

/-- C14. In every state (so in every reachable one), when
`util_frames_outbox` returns empty (length 0) and then
`util_frames_receive` returns nothing, the state left is not busy, nothing is
pending and both queued-byte totals are 0, whatever empty slots are still
linked; the same holds of the state before the two calls. -/
theorem drained_not_busy (s : Frames)
    (hp : (util_frames_outbox s).2.2 = 0)
    (hr : (util_frames_receive (util_frames_outbox s).1).2 = none) :
    util_frames_busy (util_frames_receive (util_frames_outbox s).1).1 = false ∧
    util_frames_pending (util_frames_receive (util_frames_outbox s).1).1 = false ∧
    util_frames_inlen (util_frames_receive (util_frames_outbox s).1).1 = 0 ∧
    util_frames_outlen (util_frames_receive (util_frames_outbox s).1).1 = 0 ∧
    util_frames_busy s = false ∧ util_frames_pending s = false ∧
    util_frames_inlen s = 0 ∧ util_frames_outlen s = 0 := by
  obtain ⟨_, hout, hs1⟩ := outbox_returns_empty s hp
  rw [hs1] at hr ⊢
  have hin : held s.inbox = [] := held_nil_of_receive_none s.inbox hr
  have hqi : qlob_total s.inbox = 0 := by
    rw [qlob_total_eq, queued_bytes_of_held_nil _ hin]; rfl
  have hqo : qlob_total s.outbox = 0 := by
    rw [qlob_total_eq, queued_bytes_of_held_nil _ hout]; rfl
  have hqe : qlob_total ([] : Qlob) = 0 := rfl
  simp only [util_frames_busy, util_frames_pending, util_frames_inlen, util_frames_outlen,
    util_frames_receive, receive_scan_snd_of_held_nil _ hin, hqi, hqo, hqe]
  decide

theorem drained_not_busy_witness :
    (util_frames_outbox
      (Frames.mk 7 64 none 0 0 none 0 [none, none] [none] false false false)).2.2 = 0 ∧
    (util_frames_receive (util_frames_outbox
      (Frames.mk 7 64 none 0 0 none 0 [none, none] [none] false false false)).1).2 = none ∧
    (util_frames_receive (util_frames_outbox
      (Frames.mk 7 64 none 0 0 none 0 [none, none] [none] false false false)).1).1.inbox
      = [none, none] ∧
    util_frames_busy (util_frames_receive (util_frames_outbox
      (Frames.mk 7 64 none 0 0 none 0 [none, none] [none] false false false)).1).1 = false :=
  ⟨rfl, rfl, rfl,
    (drained_not_busy (Frames.mk 7 64 none 0 0 none 0 [none, none] [none] false false false)
      rfl rfl).1⟩

/-- C15, the claim as stated fails: with two packets of `2^31` bytes each in
the outbox the integer sum of the queued lengths is `2^32`, the 32-bit
accumulator wraps to 0 and `util_frames_busy` is false while both slots hold
a packet. -/
theorem busy_false_when_total_wraps :
    queued_bytes (Frames.mk 7 64 none 0 0 none 0 []
        [some ⟨List.replicate 2147483648 0⟩, some ⟨List.replicate 2147483648 0⟩]
        false false false).inbox
      + queued_bytes (Frames.mk 7 64 none 0 0 none 0 []
        [some ⟨List.replicate 2147483648 0⟩, some ⟨List.replicate 2147483648 0⟩]
        false false false).outbox = 4294967296 ∧
    util_frames_busy (Frames.mk 7 64 none 0 0 none 0 []
        [some ⟨List.replicate 2147483648 0⟩, some ⟨List.replicate 2147483648 0⟩]
        false false false) = false :=
  ⟨(busy_two_packets 2147483648).1, (busy_two_packets 2147483648).2 (by decide)⟩

/-- C15, amended. `util_frames_busy` is true exactly when the integer sum of
the lengths of the packets held in the inbox and in the outbox is not a
multiple of `2^32` (the in-flight inbound frame is not counted); so, whenever
that sum is below `2^32`, exactly when it is greater than 0. -/
theorem busy_exact_below_wrap (frames : Frames) :
    (util_frames_busy frames = true ↔
      (queued_bytes frames.inbox + queued_bytes frames.outbox) % U32 ≠ 0) ∧
    (queued_bytes frames.inbox + queued_bytes frames.outbox < U32 →
      (util_frames_busy frames = true ↔
        queued_bytes frames.inbox + queued_bytes frames.outbox > 0)) := by
  refine ⟨busy_iff_mod frames, fun hlt => ?_⟩
  rw [busy_iff_mod, Nat.mod_eq_of_lt hlt]
  omega

theorem busy_exact_below_wrap_witness :
    queued_bytes (Frames.mk 7 64 none 0 0 none 0 [none, some ⟨[1, 2, 3]⟩] [some ⟨[4]⟩]
        false false false).inbox
      + queued_bytes (Frames.mk 7 64 none 0 0 none 0 [none, some ⟨[1, 2, 3]⟩] [some ⟨[4]⟩]
        false false false).outbox < U32 ∧
    (util_frames_busy (Frames.mk 7 64 none 0 0 none 0 [none, some ⟨[1, 2, 3]⟩] [some ⟨[4]⟩]
        false false false) = true ↔
      queued_bytes (Frames.mk 7 64 none 0 0 none 0 [none, some ⟨[1, 2, 3]⟩] [some ⟨[4]⟩]
          false false false).inbox
        + queued_bytes (Frames.mk 7 64 none 0 0 none 0 [none, some ⟨[1, 2, 3]⟩] [some ⟨[4]⟩]
          false false false).outbox > 0) :=
  ⟨by decide,
    (busy_exact_below_wrap (Frames.mk 7 64 none 0 0 none 0 [none, some ⟨[1, 2, 3]⟩]
      [some ⟨[4]⟩] false false false)).2 (by decide)⟩

/-! ## The invariant of the reachable states -/

theorem inv_new (magic max : Nat) : StateInv (util_frames_new magic max) where
  sending := rfl
  receiving := rfl
  target := by show (0 : Nat) < U32; decide
  progress := ⟨Nat.le_refl _, fun h => absurd rfl h⟩
  buffer := fun h => absurd rfl h
  inbox_shape := ⟨0, [], rfl, fun _ h => by simp at h⟩
  outbox_shape := ⟨0, [], rfl⟩
  in_flight := fun h => absurd rfl h

theorem inv_clear (s : Frames) (h : StateInv s) : StateInv (util_frames_clear s) where
  sending := h.sending
  receiving := h.receiving
  target := by show (0 : Nat) < U32; decide
  progress := ⟨Nat.le_refl _, fun h0 => absurd rfl h0⟩
  buffer := fun h0 => absurd rfl h0
  inbox_shape := h.inbox_shape
  outbox_shape := h.outbox_shape
  in_flight := h.in_flight

theorem inv_awaiting (s : Frames) (h : StateInv s) : StateInv (util_frames_awaiting s).1 := by
  unfold util_frames_awaiting
  dsimp only
  split
  · exact {
      sending := h.sending
      receiving := h.receiving
      target := by show (8 : Nat) < U32; decide
      progress := ⟨Nat.zero_le _, fun _ => by show (0 : Nat) < 8; decide⟩
      buffer := fun _ => ⟨malloc 8, rfl, rfl⟩
      inbox_shape := h.inbox_shape
      outbox_shape := h.outbox_shape
      in_flight := h.in_flight }
  · exact h

theorem inv_send (s : Frames) (out : Option Lob) (h : StateInv s) : StateInv (util_frames_send s out).1 := by
  unfold util_frames_send
  split
  · exact h
  · rename_i hlen
    cases out with
    | none => exact absurd (by decide : lob_len none < 8) hlen
    | some p =>
      obtain ⟨e, ps, hq⟩ := h.outbox_shape
      exact {
        sending := rfl
        receiving := h.receiving
        target := h.target
        progress := h.progress
        buffer := h.buffer
        inbox_shape := h.inbox_shape
        outbox_shape := ⟨e, ps ++ [p], by
          show qlob_append s.outbox (some p) = _
          rw [qlob_append_eq, hq]; simp⟩
        in_flight := fun h0 => by
          obtain ⟨q, rest, hq', hl⟩ := h.in_flight h0
          refine ⟨q, rest ++ [some p], ?_, hl⟩
          show qlob_append s.outbox (some p) = _
          rw [qlob_append_eq, hq']; rfl }

theorem receive_scan_shape (e : Nat) (ps : List Lob) :
    ∃ (e' : Nat) (ps' : List Lob), (receive_scan (List.replicate e none ++ ps.map some)).2
        = List.replicate e' none ++ ps'.map some ∧ ∀ p ∈ ps', p ∈ ps := by
  cases ps with
  | nil =>
    refine ⟨e, [], ?_, fun _ h => h⟩
    exact receive_scan_snd_of_held_nil _ (by simp [held])
  | cons p ps =>
    refine ⟨e + 1, ps, ?_, fun q h => List.mem_cons_of_mem _ h⟩
    rw [List.map_cons, receive_scan_replicate]
    simp [List.replicate_succ']

theorem inv_receive (s : Frames) (h : StateInv s) : StateInv (util_frames_receive s).1 := by
  obtain ⟨e, ps, hq, hp⟩ := h.inbox_shape
  obtain ⟨e', ps', hq', hsub⟩ := receive_scan_shape e ps
  exact {
    sending := h.sending
    receiving := rfl
    target := h.target
    progress := h.progress
    buffer := h.buffer
    inbox_shape := ⟨e', ps', by
      show (receive_scan s.inbox).2 = _
      rw [hq, hq'], fun p hp' => hp p (hsub p hp')⟩
    outbox_shape := h.outbox_shape
    in_flight := h.in_flight }

theorem inv_outbox (s : Frames) (h : StateInv s) : StateInv (util_frames_outbox s).1 := by
  unfold util_frames_outbox
  by_cases h0 : s.outlen = 0
  · obtain ⟨e, ps, hq⟩ := h.outbox_shape
    cases ps with
    | nil =>
      have hp : free_leading_empties s.is_sending s.outbox = [] := by
        rw [h.sending, hq]
        simpa using free_leading_empties_all e
      simp only [h0, if_true, hp]
      exact {
        sending := h.sending
        receiving := h.receiving
        target := h.target
        progress := h.progress
        buffer := h.buffer
        inbox_shape := h.inbox_shape
        outbox_shape := ⟨0, [], rfl⟩
        in_flight := fun hn => absurd rfl hn }
    | cons p ps =>
      have hp : free_leading_empties s.is_sending s.outbox = some p :: ps.map some := by
        rw [h.sending, hq]
        exact free_leading_empties_replicate e p _
      simp only [h0, if_true, hp]
      exact {
        sending := h.sending
        receiving := h.receiving
        target := h.target
        progress := h.progress
        buffer := h.buffer
        inbox_shape := h.inbox_shape
        outbox_shape := ⟨0, p :: ps, rfl⟩
        in_flight := fun _ => ⟨p, ps.map some, rfl, Or.inl rfl⟩ }
  · simp only [h0, if_false]
    exact h

theorem inv_sent (s : Frames) (h : StateInv s) : StateInv (util_frames_sent s).1 := by
  unfold util_frames_sent
  split
  · exact h
  · rename_i q rest hq
    by_cases h0 : s.outlen = 0
    · simp only [h0, if_true]
      exact h
    · obtain ⟨p, rest', hq', _⟩ := h.in_flight h0
      have hqp : q = some p ∧ rest = rest' := by
        rw [hq] at hq'
        injection hq' with h1 h2
        exact ⟨h1, h2⟩
      obtain ⟨hqp1, hqp2⟩ := hqp
      subst hqp1 hqp2
      by_cases h8 : s.outlen = 8
      · simp only [h0, h8, if_true, if_false]
        exact {
          sending := h.sending
          receiving := h.receiving
          target := h.target
          progress := h.progress
          buffer := h.buffer
          inbox_shape := h.inbox_shape
          outbox_shape := h.outbox_shape
          in_flight := fun _ => ⟨p, rest, hq, Or.inr rfl⟩ }
      · simp only [h0, h8, if_false]
        obtain ⟨e, ps, hs⟩ := h.outbox_shape
        exact {
          sending := h.sending
          receiving := h.receiving
          target := h.target
          progress := h.progress
          buffer := h.buffer
          inbox_shape := h.inbox_shape
          outbox_shape := by
            rw [hq] at hs
            cases e with
            | succ e => simp [List.replicate_succ] at hs
            | zero =>
              cases ps with
              | nil => simp at hs
              | cons p' ps' =>
                simp only [List.replicate_zero, List.nil_append, List.map_cons,
                  List.cons.injEq] at hs
                exact ⟨1, ps', by show lob_free (some p) :: rest = _; rw [hs.2]; rfl⟩
          in_flight := fun hn => absurd rfl hn }

theorem awaiting_fst_eq (frames : Frames) :
    (if frames.inlen = 0 then (util_frames_awaiting frames).1 else frames)
      = (util_frames_awaiting frames).1 := by
  unfold util_frames_awaiting
  dsimp only
  split <;> rfl

/-- The states one invocation of `util_frames_inbox` can leave: the state it
was given; or, from the state `fr` that `util_frames_awaiting` prepares, the
state after a copy short of the target, after a rejected header, after an
accepted header, or after a completed payload. -/
theorem inbox_body_succ (frames : Frames) (data : List Byte) (len : Nat) (f : Frames)
    (h : (util_frames_inbox_body frames data len).state = some f) :
    f = frames ∨ ∃ fr, fr = (util_frames_awaiting frames).1 ∧
      ((∃ buf n, 1 ≤ n ∧ n < sub32 fr.inlen fr.inat ∧
          memcpy fr.in_ fr.inat data n = some buf ∧
          f = { fr with in_ := some buf, inat := u32 (fr.inat + n) }) ∨
       (fr.inlen = 8 ∧
          f = { fr with in_ := none, inlen := 0, inat := 0, inbox_err := true }) ∨
       (fr.inlen = 8 ∧ ∃ L, L < U32 ∧
          f = { fr with in_ := some (malloc L), inlen := L, inat := 0, inbox_err := false }) ∨
       (fr.inlen ≠ 8 ∧ ∃ buf n, memcpy fr.in_ fr.inat data n = some buf ∧
          f = { fr with
                  in_ := none, inlen := 0, inat := 0,
                  inbox := qlob_append (free_leading_empties fr.is_receiving fr.inbox)
                    (lob_direct buf fr.inlen) })) := by
  unfold util_frames_inbox_body at h
  rw [awaiting_fst_eq] at h
  generalize (util_frames_awaiting frames).1 = fr at h
  dsimp only at h
  split at h
  · left
    simpa [Invocation.state] using h.symm
  · right
    refine ⟨fr, rfl, ?_⟩
    rename_i hl0
    split at h
    · rename_i hlt
      split at h
      · simp [Invocation.state] at h
      · rename_i buf hm
        left
        refine ⟨buf, len, by omega, hlt, hm, ?_⟩
        simpa [Invocation.state] using h.symm
    · split at h
      · simp [Invocation.state] at h
      · rename_i buf hm
        right
        split at h
        · rename_i h8
          split at h
          · simp [Invocation.state] at h
          · split at h
            · left
              refine ⟨h8, ?_⟩
              simpa [Invocation.state] using h.symm
            · right; left
              refine ⟨h8, rd32 (List.take 4 (List.drop 4 data)), rd32_lt _, ?_⟩
              split at h <;> simpa [Invocation.state] using h.symm
        · rename_i h8
          right; right
          refine ⟨h8, buf, _, hm, ?_⟩
          split at h <;> simpa [Invocation.state] using h.symm

theorem memcpy_length (d : Option (List Byte)) (off : Nat) (src : List Byte) (n : Nat)
    (buf : List Byte) (h : memcpy d off src n = some buf) :
    ∃ d', d = some d' ∧ buf.length = d'.length := by
  cases d with
  | none => simp [memcpy] at h
  | some d' =>
    refine ⟨d', rfl, ?_⟩
    unfold memcpy at h
    dsimp only at h
    split at h
    · rename_i hc
      injection h with h
      rw [← h]
      simp only [List.length_append, List.length_take, List.length_drop]
      omega
    · simp at h

theorem free_leading_empties_shape (e : Nat) (ps : List Lob) :
    free_leading_empties false (List.replicate e none ++ ps.map some) = ps.map some := by
  cases ps with
  | nil => simpa using free_leading_empties_all e
  | cons p ps => exact free_leading_empties_replicate e p _

theorem awaiting_inlen_ne (frames : Frames) : (util_frames_awaiting frames).1.inlen ≠ 0 := by
  unfold util_frames_awaiting
  dsimp only
  split
  · show (8 : Nat) ≠ 0; decide
  · assumption

theorem inv_body (frames : Frames) (data : List Byte) (len : Nat) (f : Frames)
    (hi : StateInv frames) (h : (util_frames_inbox_body frames data len).state = some f) :
    StateInv f := by
  rcases inbox_body_succ frames data len f h with h | ⟨fr, hfr, hc⟩
  · rw [h]; exact hi
  · have hf : StateInv fr := by rw [hfr]; exact inv_awaiting frames hi
    have hne : fr.inlen ≠ 0 := by rw [hfr]; exact awaiting_inlen_ne frames
    obtain ⟨b0, hb0, hbl⟩ := hf.buffer hne
    have hsub : sub32 fr.inlen fr.inat = fr.inlen - fr.inat :=
      sub32_of_le _ _ hf.progress.1 hf.target
    rcases hc with ⟨buf, n, hn1, hlt, hm, rfl⟩ | ⟨h8, rfl⟩ | ⟨h8, L, hL, rfl⟩ |
      ⟨h8, buf, n, hm, rfl⟩
    · obtain ⟨d', hd', hlen⟩ := memcpy_length _ _ _ _ _ hm
      have hdb : d' = b0 := by rw [hb0] at hd'; injection hd' with hd'; exact hd'.symm
      have htl := hf.target
      have hu : u32 (fr.inat + n) = fr.inat + n := by
        simp only [u32, U32] at *; omega
      exact {
        sending := hf.sending
        receiving := hf.receiving
        target := hf.target
        progress := by
          show u32 (fr.inat + n) ≤ fr.inlen ∧ (fr.inlen ≠ 0 → u32 (fr.inat + n) < fr.inlen)
          rw [hu]; omega
        buffer := fun _ => ⟨buf, rfl, by rw [hlen, hdb]; exact hbl⟩
        inbox_shape := hf.inbox_shape
        outbox_shape := hf.outbox_shape
        in_flight := hf.in_flight }
    · exact {
        sending := hf.sending
        receiving := hf.receiving
        target := by show (0 : Nat) < U32; decide
        progress := ⟨Nat.le_refl _, fun h0 => absurd rfl h0⟩
        buffer := fun h0 => absurd rfl h0
        inbox_shape := hf.inbox_shape
        outbox_shape := hf.outbox_shape
        in_flight := hf.in_flight }
    · exact {
        sending := hf.sending
        receiving := hf.receiving
        target := hL
        progress := ⟨Nat.zero_le _, fun h0 => Nat.pos_of_ne_zero h0⟩
        buffer := fun _ => ⟨malloc L, rfl, by simp [malloc]⟩
        inbox_shape := hf.inbox_shape
        outbox_shape := hf.outbox_shape
        in_flight := hf.in_flight }
    · obtain ⟨d', hd', hlen⟩ := memcpy_length _ _ _ _ _ hm
      have hdb : d' = b0 := by rw [hb0] at hd'; injection hd' with hd'; exact hd'.symm
      obtain ⟨e, ps, hq, hp⟩ := hf.inbox_shape
      exact {
        sending := hf.sending
        receiving := hf.receiving
        target := by show (0 : Nat) < U32; decide
        progress := ⟨Nat.le_refl _, fun h0 => absurd rfl h0⟩
        buffer := fun h0 => absurd rfl h0
        inbox_shape := ⟨0, ps ++ [⟨buf.take fr.inlen⟩], by
          show qlob_append (free_leading_empties fr.is_receiving fr.inbox)
            (lob_direct buf fr.inlen) = _
          rw [hf.receiving, hq, free_leading_empties_shape, qlob_append_eq]
          simp [lob_direct], by
          intro p hp'
          rcases List.mem_append.1 hp' with hp' | hp'
          · exact hp p hp'
          · simp only [List.mem_singleton] at hp'
            rw [hp']
            simp only [List.length_take]
            rw [hlen, hdb, hbl]
            omega⟩
        outbox_shape := hf.outbox_shape
        in_flight := hf.in_flight }

theorem inv_inbox_go (fuel : Nat) (frames : Frames) (data : List Byte) (len : Nat)
    (f : Frames) (ok : Bool) (hi : StateInv frames)
    (h : util_frames_inbox_go fuel frames data len = Outcome.ret f ok) : StateInv f := by
  induction fuel generalizing frames data len with
  | zero => simp [util_frames_inbox_go] at h
  | succ fuel ih =>
    rw [util_frames_inbox_go] at h
    cases hb : util_frames_inbox_body frames data len with
    | ret f' ok' =>
      rw [hb] at h
      injection h with h1 h2
      subst h1
      exact inv_body frames data len f' hi (by rw [hb]; rfl)
    | fault => rw [hb] at h; simp at h
    | again f' m ml =>
      rw [hb] at h
      exact ih f' m ml (inv_body frames data len f' hi (by rw [hb]; rfl)) h

theorem inv_step (s : Frames) (op : Op) (f : Frames) (got : Option Lob) (hi : StateInv s)
    (h : step s op = some (f, got)) : StateInv f := by
  cases op with
  | send out =>
    simp only [step, Option.some.injEq, Prod.mk.injEq] at h
    rw [← h.1]; exact inv_send s out hi
  | receive =>
    simp only [step, Option.some.injEq] at h
    have hf : f = (util_frames_receive s).1 := by rw [h]
    rw [hf]; exact inv_receive s hi
  | outbox =>
    simp only [step, Option.some.injEq, Prod.mk.injEq] at h
    rw [← h.1]; exact inv_outbox s hi
  | sent =>
    simp only [step, Option.some.injEq, Prod.mk.injEq] at h
    rw [← h.1]; exact inv_sent s hi
  | awaiting =>
    simp only [step, Option.some.injEq, Prod.mk.injEq] at h
    rw [← h.1]; exact inv_awaiting s hi
  | inbox data =>
    simp only [step] at h
    cases ho : util_frames_inbox s data data.length with
    | ret f' ok =>
      rw [ho] at h
      simp only [Option.some.injEq, Prod.mk.injEq] at h
      rw [← h.1]
      exact inv_inbox_go _ s data data.length f' ok hi ho
    | fault => rw [ho] at h; simp at h
    | nofuel => rw [ho] at h; simp at h
  | clear =>
    simp only [step, Option.some.injEq, Prod.mk.injEq] at h
    rw [← h.1]; exact inv_clear s hi

theorem inv_run (ops : List Op) (s f : Frames) (got : List Lob) (hi : StateInv s)
    (h : run s ops = some (f, got)) : StateInv f := by
  induction ops generalizing s got with
  | nil =>
    simp only [run, Option.some.injEq, Prod.mk.injEq] at h
    rw [← h.1]; exact hi
  | cons op ops ih =>
    rw [run] at h
    cases hs : step s op with
    | none => rw [hs] at h; simp at h
    | some r =>
      obtain ⟨s1, g1⟩ := r
      rw [hs] at h
      dsimp only at h
      cases hr : run s1 ops with
      | none => rw [hr] at h; simp at h
      | some r2 =>
        obtain ⟨s2, g2⟩ := r2
        rw [hr] at h
        simp only [Option.some.injEq, Prod.mk.injEq] at h
        rw [h.1] at hr
        exact ih s1 g2 (inv_step s op s1 g1 hi hs) hr

theorem reachable_inv (s : Frames) (h : Reachable s) : StateInv s := by
  obtain ⟨magic, max, ops, got, hr⟩ := h
  exact inv_run ops _ s got (inv_new magic max) hr

/-! ## Claims on the reachable states -/

/-- In every reachable state the inbound progress does not exceed the target,
and is 0 when the target is 0. -/
theorem reachable_progress (s : Frames) (h : Reachable s) :
    s.inat ≤ s.inlen ∧ (s.inlen = 0 → s.inat = 0) := by
  have hi := (reachable_inv s h).progress.1
  exact ⟨hi, fun h0 => by omega⟩

/-- C16. After a header with the configured sync and declared length 0, fed to
a new state, the target length and the progress are 0 but the inbound buffer
is present: it is the block `malloc(0)` returned, which nothing releases. -/
theorem zero_length_header_keeps_buffer :
    run (util_frames_new 0xABCD1234 1024) [Op.inbox [0x34, 0x12, 0xCD, 0xAB, 0, 0, 0, 0]]
      = some (Frames.mk 0xABCD1234 1024 (some []) 0 0 none 0 [] [] false false false, []) ∧
    (Frames.mk 0xABCD1234 1024 (some []) 0 0 none 0 [] [] false false false).inlen = 0 ∧
    (Frames.mk 0xABCD1234 1024 (some []) 0 0 none 0 [] [] false false false).inat = 0 ∧
    (Frames.mk 0xABCD1234 1024 (some []) 0 0 none 0 [] [] false false false).in_ ≠ none := by
  decide

theorem run_send_outbox_sent (magic max : Nat) (p : Lob) (h : 8 ≤ p.raw.length) :
    run (util_frames_new magic max) [Op.send (some p), Op.outbox, Op.sent]
      = some ({ util_frames_new magic max with
                  outbox := [some p], out := some p.raw, outlen := u32 p.raw.length }, []) := by
  have hlt : ¬ p.raw.length < 8 := by omega
  simp [run, step, util_frames_send, util_frames_outbox, util_frames_sent, util_frames_new,
    lob_len, lob_raw, hlt, qlob_append, free_leading_empties]

/-- C18, the claim as stated fails: after sending a packet of `2^32 + 9` bytes
to a new state, one peek and one advance, the chunk in flight has
`outlen = 9`, which is neither 8 nor the length of the head packet. -/
theorem in_flight_length_truncated :
    Reachable (Frames.mk 7 64 none 0 0 (some (List.replicate 4294967305 0)) 9 []
      [some ⟨List.replicate 4294967305 0⟩] false false false) ∧
    (Frames.mk 7 64 none 0 0 (some (List.replicate 4294967305 0)) 9 []
      [some ⟨List.replicate 4294967305 0⟩] false false false).outlen ≠ 0 ∧
    (Frames.mk 7 64 none 0 0 (some (List.replicate 4294967305 0)) 9 []
      [some ⟨List.replicate 4294967305 0⟩] false false false).outlen ≠ 8 ∧
    (Frames.mk 7 64 none 0 0 (some (List.replicate 4294967305 0)) 9 []
      [some ⟨List.replicate 4294967305 0⟩] false false false).outlen
      ≠ (⟨List.replicate 4294967305 0⟩ : Lob).raw.length := by
  refine ⟨⟨7, 64, [Op.send (some ⟨List.replicate 4294967305 0⟩), Op.outbox, Op.sent], [], ?_⟩,
    by decide, by decide, ?_⟩
  · rw [run_send_outbox_sent 7 64 _ (by simp only [List.length_replicate]; decide)]
    simp only [List.length_replicate]
    rfl
  · simp only [List.length_replicate]
    decide

/-- C18, amended. In every reachable state with a chunk in flight
(`outlen ≠ 0`) the outbox is not empty and its head slot holds a packet, so
`util_frames_sent` never reads the packet of an absent or empty head slot;
`outlen` is 8 or the length of that packet reduced modulo `2^32`, hence 8 or
that length whenever the packet is shorter than `2^32` bytes. -/
theorem in_flight_chunk_of_head_packet (s : Frames) (hr : Reachable s) (h : s.outlen ≠ 0) :
    ∃ p rest, s.outbox = some p :: rest ∧
      (s.outlen = 8 ∨ s.outlen = p.raw.length % U32) ∧
      (p.raw.length < U32 → (s.outlen = 8 ∨ s.outlen = p.raw.length)) := by
  obtain ⟨p, rest, hq, hl⟩ := (reachable_inv s hr).in_flight h
  refine ⟨p, rest, hq, hl, fun hlt => ?_⟩
  rcases hl with hl | hl
  · exact Or.inl hl
  · exact Or.inr (by rw [hl, u32, Nat.mod_eq_of_lt hlt])

theorem in_flight_chunk_of_head_packet_witness :
    Reachable (Frames.mk 7 64 none 0 0 (some [7, 0, 0, 0, 9, 0, 0, 0]) 8 []
      [some ⟨[1, 2, 3, 4, 5, 6, 7, 8, 9]⟩] false false false) ∧
    (Frames.mk 7 64 none 0 0 (some [7, 0, 0, 0, 9, 0, 0, 0]) 8 []
      [some ⟨[1, 2, 3, 4, 5, 6, 7, 8, 9]⟩] false false false).outlen ≠ 0 ∧
    ∃ p rest,
      (Frames.mk 7 64 none 0 0 (some [7, 0, 0, 0, 9, 0, 0, 0]) 8 []
        [some ⟨[1, 2, 3, 4, 5, 6, 7, 8, 9]⟩] false false false).outbox = some p :: rest ∧
      ((Frames.mk 7 64 none 0 0 (some [7, 0, 0, 0, 9, 0, 0, 0]) 8 []
        [some ⟨[1, 2, 3, 4, 5, 6, 7, 8, 9]⟩] false false false).outlen = 8 ∨
       (Frames.mk 7 64 none 0 0 (some [7, 0, 0, 0, 9, 0, 0, 0]) 8 []
        [some ⟨[1, 2, 3, 4, 5, 6, 7, 8, 9]⟩] false false false).outlen
          = p.raw.length % U32) ∧
      (p.raw.length < U32 →
        ((Frames.mk 7 64 none 0 0 (some [7, 0, 0, 0, 9, 0, 0, 0]) 8 []
          [some ⟨[1, 2, 3, 4, 5, 6, 7, 8, 9]⟩] false false false).outlen = 8 ∨
         (Frames.mk 7 64 none 0 0 (some [7, 0, 0, 0, 9, 0, 0, 0]) 8 []
          [some ⟨[1, 2, 3, 4, 5, 6, 7, 8, 9]⟩] false false false).outlen = p.raw.length)) :=
  ⟨⟨7, 64, [Op.send (some ⟨[1, 2, 3, 4, 5, 6, 7, 8, 9]⟩), Op.outbox], [], by decide⟩,
    by decide,
    in_flight_chunk_of_head_packet _
      ⟨7, 64, [Op.send (some ⟨[1, 2, 3, 4, 5, 6, 7, 8, 9]⟩), Op.outbox], [], by decide⟩
      (by decide)⟩

/-- C19. In every reachable state each queue is a run of empty slots followed
by slots that all hold a packet, so no empty slot comes after a held packet,
and pruning the leading empty slots (guard clear) leaves no empty slot. -/
theorem empty_slots_form_prefix (s : Frames) (hr : Reachable s) :
    (∃ (e : Nat) (ps : List Lob), s.inbox = List.replicate e none ++ ps.map some ∧
      free_leading_empties false s.inbox = ps.map some) ∧
    (∃ (e : Nat) (ps : List Lob), s.outbox = List.replicate e none ++ ps.map some ∧
      free_leading_empties false s.outbox = ps.map some) := by
  have hi := reachable_inv s hr
  obtain ⟨e, ps, hq, _⟩ := hi.inbox_shape
  obtain ⟨e', ps', hq'⟩ := hi.outbox_shape
  exact ⟨⟨e, ps, hq, by rw [hq]; exact free_leading_empties_shape e ps⟩,
    ⟨e', ps', hq', by rw [hq']; exact free_leading_empties_shape e' ps'⟩⟩

theorem empty_slots_form_prefix_witness :
    Reachable (Frames.mk 7 64 none 0 0 none 0 [] [none, some ⟨[1, 2, 3, 4, 5, 6, 7, 8, 9]⟩]
      false false false) ∧
    (∃ (e : Nat) (ps : List Lob),
      (Frames.mk 7 64 none 0 0 none 0 [] [none, some ⟨[1, 2, 3, 4, 5, 6, 7, 8, 9]⟩]
        false false false).inbox = List.replicate e none ++ ps.map some ∧
      free_leading_empties false
        (Frames.mk 7 64 none 0 0 none 0 [] [none, some ⟨[1, 2, 3, 4, 5, 6, 7, 8, 9]⟩]
          false false false).inbox = ps.map some) ∧
    (∃ (e : Nat) (ps : List Lob),
      (Frames.mk 7 64 none 0 0 none 0 [] [none, some ⟨[1, 2, 3, 4, 5, 6, 7, 8, 9]⟩]
        false false false).outbox = List.replicate e none ++ ps.map some ∧
      free_leading_empties false
        (Frames.mk 7 64 none 0 0 none 0 [] [none, some ⟨[1, 2, 3, 4, 5, 6, 7, 8, 9]⟩]
          false false false).outbox = ps.map some) :=
  ⟨⟨7, 64, [Op.send (some ⟨[9, 8, 7, 6, 5, 4, 3, 2, 1]⟩), Op.outbox, Op.sent, Op.outbox,
      Op.send (some ⟨[1, 2, 3, 4, 5, 6, 7, 8, 9]⟩), Op.sent], [], by decide⟩,
    empty_slots_form_prefix _
      ⟨7, 64, [Op.send (some ⟨[9, 8, 7, 6, 5, 4, 3, 2, 1]⟩), Op.outbox, Op.sent, Op.outbox,
        Op.send (some ⟨[1, 2, 3, 4, 5, 6, 7, 8, 9]⟩), Op.sent], [], by decide⟩⟩

theorem reachable_inbox_packets (s : Frames) (hr : Reachable s) :
    ∀ p ∈ held s.inbox, 1 ≤ p.raw.length := by
  obtain ⟨e, ps, hq, hp⟩ := (reachable_inv s hr).inbox_shape
  have hh : held s.inbox = ps := by
    rw [hq]
    simp [held, List.filterMap_append, List.filterMap_replicate_of_none]
  rw [hh]
  exact hp

/-- C20. With no inbound frame in progress, an 8-byte header with the
configured sync and declared length 0 is accepted: the call succeeds, the
latch is clear, the inbox is as before and `inlen = inat = 0`; bytes that
follow it in the same call are handled exactly as a call delivering them to
the state the header leaves, which has no frame in progress, so they start
with the next header; and no reachable state holds a packet of length 0 in its
inbox. -/
theorem zero_length_frame (frames : Frames) (rest : List Byte)
    (hin : frames.inlen = 0) (hm : frames.magic < U32) :
    util_frames_inbox frames (le32 frames.magic ++ le32 0) 8
      = Outcome.ret { frames with in_ := some [], inlen := 0, inat := 0, inbox_err := false }
          true ∧
    (rest ≠ [] →
      util_frames_inbox frames (le32 frames.magic ++ le32 0 ++ rest) (8 + rest.length)
        = util_frames_inbox
            { frames with in_ := some [], inlen := 0, inat := 0, inbox_err := false }
            rest rest.length) ∧
    (∀ s, Reachable s → ∀ p ∈ held s.inbox, 1 ≤ p.raw.length) := by
  have h0 : rd32 (le32 0) = 0 := by decide
  have hok : ¬ (rd32 (le32 frames.magic) ≠ frames.magic ∨ 0 > frames.max) := by
    rw [rd32_le32 _ hm]; simp
  refine ⟨?_, fun hne => ?_, reachable_inbox_packets⟩
  · have s1 := inbox_go_header 8 frames (le32 frames.magic ++ le32 0) 8 (Or.inl hin)
      (le_refl 8) (by simp [le32_length])
    have h1 : List.take 4 (le32 frames.magic ++ le32 0) = le32 frames.magic :=
      List.take_left' (le32_length _)
    have h2 : List.take 4 (List.drop 4 (le32 frames.magic ++ le32 0)) = le32 0 := by
      rw [List.drop_left' (le32_length _)]; rfl
    rw [h1, h2, h0, if_neg hok, if_neg (lt_irrefl 8)] at s1
    exact s1
  · have h1 : List.take 4 (le32 frames.magic ++ le32 0 ++ rest) = le32 frames.magic := by
      rw [List.append_assoc, List.take_left' (le32_length _)]
    have h2 : List.take 4 (List.drop 4 (le32 frames.magic ++ le32 0 ++ rest)) = le32 0 := by
      rw [List.append_assoc, List.drop_left' (le32_length _), List.take_left' (le32_length _)]
    have h3 : List.drop 8 (le32 frames.magic ++ le32 0 ++ rest) = rest :=
      List.drop_left' (by simp [le32_length])
    have hpos : 0 < rest.length := List.length_pos.2 hne
    have s1 := inbox_go_header (8 + rest.length) frames (le32 frames.magic ++ le32 0 ++ rest)
      (8 + rest.length) (Or.inl hin) (by omega) (by simp [le32_length]; omega)
    rw [h1, h2, h3, h0, if_neg hok, if_pos (by omega)] at s1
    rw [show 8 + rest.length - 8 = rest.length by omega] at s1
    unfold util_frames_inbox
    rw [s1]
    have hmono := inbox_go_mono (rest.length + 1) (header_accepted frames 0) rest rest.length
      (util_frames_inbox_ne_nofuel _ _ _) 7
    rw [show rest.length + 1 + 7 = 8 + rest.length by omega] at hmono
    exact hmono

theorem zero_length_frame_witness :
    (util_frames_new 0xABCD1234 1024).inlen = 0 ∧ (util_frames_new 0xABCD1234 1024).magic < U32 ∧
    ([0x34, 0x12, 0xCD, 0xAB, 3, 0, 0, 0] : List Byte) ≠ [] ∧
    util_frames_inbox (util_frames_new 0xABCD1234 1024)
        (le32 (util_frames_new 0xABCD1234 1024).magic ++ le32 0) 8
      = Outcome.ret
          { util_frames_new 0xABCD1234 1024 with
              in_ := some [], inlen := 0, inat := 0, inbox_err := false } true ∧
    util_frames_inbox (util_frames_new 0xABCD1234 1024)
        (le32 (util_frames_new 0xABCD1234 1024).magic ++ le32 0
          ++ [0x34, 0x12, 0xCD, 0xAB, 3, 0, 0, 0])
        (8 + ([0x34, 0x12, 0xCD, 0xAB, 3, 0, 0, 0] : List Byte).length)
      = util_frames_inbox
          { util_frames_new 0xABCD1234 1024 with
              in_ := some [], inlen := 0, inat := 0, inbox_err := false }
          [0x34, 0x12, 0xCD, 0xAB, 3, 0, 0, 0]
          ([0x34, 0x12, 0xCD, 0xAB, 3, 0, 0, 0] : List Byte).length :=
  ⟨rfl, by decide, by decide,
    (zero_length_frame (util_frames_new 0xABCD1234 1024) [0x34, 0x12, 0xCD, 0xAB, 3, 0, 0, 0]
      rfl (by decide)).1,
    (zero_length_frame (util_frames_new 0xABCD1234 1024) [0x34, 0x12, 0xCD, 0xAB, 3, 0, 0, 0]
      rfl (by decide)).2.1 (by decide)⟩

/-! ## The recursion of `util_frames_inbox` -/

theorem inbox_body_again_await (frames : Frames) (data : List Byte) (len : Nat) (f : Frames)
    (m : List Byte) (ml : Nat)
    (h : util_frames_inbox_body frames data len = Invocation.again f m ml) :
    ml + sub32 (util_frames_awaiting frames).1.inlen (util_frames_awaiting frames).1.inat
      = len := by
  unfold util_frames_inbox_body at h
  rw [awaiting_fst_eq] at h
  generalize (util_frames_awaiting frames).1 = fr at h ⊢
  dsimp only at h
  generalize sub32 fr.inlen fr.inat = a at h ⊢
  split at h
  · exact absurd h (by simp)
  · split at h
    · split at h <;> exact absurd h (by simp)
    · split at h
      · exact absurd h (by simp)
      · by_cases hgt : len > a
        · simp only [hgt, if_true] at h
          split at h
          · split at h
            · exact absurd h (by simp)
            · split at h
              · exact absurd h (by simp)
              · injection h with h1 h2 h3
                omega
          · injection h with h1 h2 h3
            omega
        · simp only [hgt, if_false] at h
          split at h
          · split at h
            · exact absurd h (by simp)
            · split at h <;> exact absurd h (by simp)
          · exact absurd h (by simp)

theorem await_pos_of_progress (frames : Frames) (hlt : frames.inlen < U32)
    (hp : frames.inlen = 0 ∨ frames.inat < frames.inlen) :
    1 ≤ sub32 (util_frames_awaiting frames).1.inlen (util_frames_awaiting frames).1.inat := by
  unfold util_frames_awaiting
  dsimp only
  split
  · show 1 ≤ sub32 8 0
    rw [sub32_8_0]; decide
  · rename_i h0
    have hat : frames.inat < frames.inlen := by
      rcases hp with hp | hp
      · exact absurd hp h0
      · exact hp
    rw [sub32_of_le _ _ (by omega) hlt]
    omega

theorem remainders_chain (fuel : Nat) (frames : Frames) (data : List Byte) (len : Nat)
    (hat : frames.inat = 0) (hlt : frames.inlen < U32) :
    List.Chain (· > ·) len (inbox_remainders fuel frames data len) ∧
      ∀ r ∈ inbox_remainders fuel frames data len, 1 ≤ r := by
  induction fuel generalizing frames data len with
  | zero => exact ⟨List.Chain.nil, fun _ h => by simp [inbox_remainders] at h⟩
  | succ fuel ih =>
    rw [inbox_remainders]
    cases hb : util_frames_inbox_body frames data len with
    | ret f ok => exact ⟨List.Chain.nil, fun _ h => by simp at h⟩
    | fault => exact ⟨List.Chain.nil, fun _ h => by simp at h⟩
    | again f m ml =>
      obtain ⟨hml, _, _, hfa, hfl, hdec⟩ := inbox_body_again frames data len f m ml hb
      obtain ⟨hc, hr⟩ := ih f m ml hfa hfl
      refine ⟨List.Chain.cons (hdec hat hlt) hc, fun r hmem => ?_⟩
      rcases List.mem_cons.1 hmem with h | h
      · rw [h]; exact hml
      · exact hr r h

theorem chain_gt_length (a : Nat) (l : List Nat) (hc : List.Chain (· > ·) a l)
    (hp : ∀ r ∈ l, 1 ≤ r) : l.length ≤ a - 1 := by
  induction l generalizing a with
  | nil => simp
  | cons r l ih =>
    rw [List.chain_cons] at hc
    have h1 := ih r hc.2 (fun x hx => hp x (List.mem_cons_of_mem _ hx))
    have h2 := hp r (List.mem_cons_self _ _)
    have h3 : a > r := hc.1
    simp only [List.length_cons]
    omega

theorem inbox_body_again_stage (frames : Frames) (data : List Byte) (len : Nat) (f : Frames)
    (m : List Byte) (ml : Nat)
    (h : util_frames_inbox_body frames data len = Invocation.again f m ml) :
    (util_frames_awaiting frames).1.inlen ≠ 8 → f.inlen = 0 := by
  unfold util_frames_inbox_body at h
  rw [awaiting_fst_eq] at h
  generalize (util_frames_awaiting frames).1 = fr at h ⊢
  dsimp only at h
  generalize sub32 fr.inlen fr.inat = a at h
  intro h8
  split at h
  · exact absurd h (by simp)
  · split at h
    · split at h <;> exact absurd h (by simp)
    · split at h
      · exact absurd h (by simp)
      · split at h
        · injection h with h1 h2 h3
          rw [← h1]
        · exact absurd h (by simp)

theorem remainders_count (fuel : Nat) (frames : Frames) (data : List Byte) (len : Nat)
    (hat : frames.inat = 0) (hlt : frames.inlen < U32) :
    (inbox_remainders fuel frames data len).length
      ≤ 2 * (len / 8) + (if frames.inlen = 0 ∨ frames.inlen = 8 then 0 else 1) := by
  induction fuel generalizing frames data len with
  | zero => simp [inbox_remainders]
  | succ fuel ih =>
    rw [inbox_remainders]
    cases hb : util_frames_inbox_body frames data len with
    | ret f ok => simp
    | fault => simp
    | again f m ml =>
      obtain ⟨hml, hle, _, hfa, hfl, _⟩ := inbox_body_again frames data len f m ml hb
      have haw := inbox_body_again_await frames data len f m ml hb
      have hst := inbox_body_again_stage frames data len f m ml hb
      have hrec := ih f m ml hfa hfl
      simp only [List.length_cons]
      by_cases hs : frames.inlen = 0 ∨ frames.inlen = 8
      · have h8 : sub32 (util_frames_awaiting frames).1.inlen
            (util_frames_awaiting frames).1.inat = 8 := by
          unfold util_frames_awaiting
          dsimp only
          split
          · exact sub32_8_0
          · rename_i h0
            have h88 : frames.inlen = 8 := by
              rcases hs with hs | hs
              · exact absurd hs h0
              · exact hs
            rw [h88, hat]; exact sub32_8_0
        rw [h8] at haw
        have hle1 : (if f.inlen = 0 ∨ f.inlen = 8 then 0 else 1) ≤ 1 := by split <;> omega
        simp only [hs, if_true]
        omega
      · have hne : (util_frames_awaiting frames).1.inlen ≠ 8 := by
          unfold util_frames_awaiting
          dsimp only
          split
          · rename_i h0; exact absurd (Or.inl h0) hs
          · exact fun h8 => hs (Or.inr h8)
        have hf0 := hst hne
        simp only [hf0, true_or, if_true] at hrec
        simp only [hs, if_false]
        omega

/-- C17, the claim as stated fails: ten bytes (a header declaring 1 byte, the
byte, and 1 byte of the next header) fed to a new state make 2 recursive
calls, more than `10 / 8 = 1`; and in a state whose progress equals its target
the first recursive call is passed the whole input. -/
theorem recursion_exceeds_len_div_8 :
    inbox_remainders 11 (util_frames_new 0xABCD1234 1024)
        [0x34, 0x12, 0xCD, 0xAB, 1, 0, 0, 0, 5, 0x34] 10 = [2, 1] ∧
    ([2, 1] : List Nat).length > 10 / 8 ∧
    inbox_remainders 9
        (Frames.mk 0xABCD1234 1024 (some [0, 0, 0, 0, 0, 0, 0, 0]) 8 8 none 0 [] []
          false false false)
        [0x34, 0x12, 0xCD, 0xAB, 1, 0, 0, 0] 8 = [8, 7] := by
  decide

/-- C17, amended. For every state, input and budget of invocations: the call
never exhausts the budget `len + 1` (it returns or faults); every recursive
call is passed a non-empty remainder no longer than the input, each strictly
shorter than the one before; at most `len` and at most `2 * (len / 8) + 2`
recursive calls are made, and at most `2 * (len / 8)` when no frame is in
progress at the call. When the state has no frame in progress or its progress
is below its target (as in every reachable state), the first remainder is
strictly shorter than the input as well. -/
theorem feed_recursion_bounded (frames : Frames) (data : List Byte) (len fuel : Nat) :
    util_frames_inbox frames data len ≠ Outcome.nofuel ∧
    (∀ r ∈ inbox_remainders fuel frames data len, 1 ≤ r ∧ r ≤ len) ∧
    List.Chain' (· > ·) (inbox_remainders fuel frames data len) ∧
    (inbox_remainders fuel frames data len).length ≤ len ∧
    (inbox_remainders fuel frames data len).length ≤ 2 * (len / 8) + 2 ∧
    (frames.inlen = 0 → (inbox_remainders fuel frames data len).length ≤ 2 * (len / 8)) ∧
    (frames.inlen < U32 → (frames.inlen = 0 ∨ frames.inat < frames.inlen) →
      List.Chain (· > ·) len (inbox_remainders fuel frames data len)) := by
  refine ⟨util_frames_inbox_ne_nofuel frames data len, ?_⟩
  cases fuel with
  | zero =>
    simp only [inbox_remainders]
    exact ⟨fun _ h => by simp at h, List.chain'_nil, Nat.zero_le _, Nat.zero_le _,
      fun _ => Nat.zero_le _, fun _ _ => List.Chain.nil⟩
  | succ fuel =>
    rw [inbox_remainders]
    cases hb : util_frames_inbox_body frames data len with
    | ret f ok =>
      exact ⟨fun _ h => by simp at h, List.chain'_nil, Nat.zero_le _, Nat.zero_le _,
        fun _ => Nat.zero_le _, fun _ _ => List.Chain.nil⟩
    | fault =>
      exact ⟨fun _ h => by simp at h, List.chain'_nil, Nat.zero_le _, Nat.zero_le _,
        fun _ => Nat.zero_le _, fun _ _ => List.Chain.nil⟩
    | again f m ml =>
      obtain ⟨hml, hle, _, hfa, hfl, _⟩ := inbox_body_again frames data len f m ml hb
      obtain ⟨hc, hr⟩ := remainders_chain fuel f m ml hfa hfl
      have hlen := chain_gt_length ml _ hc hr
      have haw := inbox_body_again_await frames data len f m ml hb
      have hcnt := remainders_count fuel f m ml hfa hfl
      have hle1 : (if f.inlen = 0 ∨ f.inlen = 8 then 0 else 1) ≤ 1 := by split <;> omega
      refine ⟨fun r hmem => ?_, hc, ?_, ?_, fun h0 => ?_, fun hlt hp => ?_⟩
      · rcases List.mem_cons.1 hmem with h | h
        · rw [h]; exact ⟨hml, hle⟩
        · have h1 := hr r h
          have h2 : r < ml := List.rel_of_pairwise_cons (List.chain_iff_pairwise.1 hc) h
          omega
      · simp only [List.length_cons]; omega
      · simp only [List.length_cons]; omega
      · have h8 : sub32 (util_frames_awaiting frames).1.inlen
            (util_frames_awaiting frames).1.inat = 8 := by
          simp only [util_frames_awaiting, h0, if_true]
          exact sub32_8_0
        rw [h8] at haw
        simp only [List.length_cons]
        omega
      · have hpos := await_pos_of_progress frames hlt hp
        exact List.Chain.cons (by show len > ml; omega) hc

theorem feed_recursion_bounded_witness :
    (util_frames_new 0xABCD1234 1024).inlen < U32 ∧
    ((util_frames_new 0xABCD1234 1024).inlen = 0 ∨
      (util_frames_new 0xABCD1234 1024).inat < (util_frames_new 0xABCD1234 1024).inlen) ∧
    util_frames_inbox (util_frames_new 0xABCD1234 1024)
      [0x34, 0x12, 0xCD, 0xAB, 1, 0, 0, 0, 5, 0x34] 10 ≠ Outcome.nofuel ∧
    (inbox_remainders 11 (util_frames_new 0xABCD1234 1024)
      [0x34, 0x12, 0xCD, 0xAB, 1, 0, 0, 0, 5, 0x34] 10).length ≤ 2 * (10 / 8) ∧
    List.Chain (· > ·) 10 (inbox_remainders 11 (util_frames_new 0xABCD1234 1024)
      [0x34, 0x12, 0xCD, 0xAB, 1, 0, 0, 0, 5, 0x34] 10) :=
  ⟨by decide, Or.inl rfl,
    (feed_recursion_bounded (util_frames_new 0xABCD1234 1024)
      [0x34, 0x12, 0xCD, 0xAB, 1, 0, 0, 0, 5, 0x34] 10 11).1,
    (feed_recursion_bounded (util_frames_new 0xABCD1234 1024)
      [0x34, 0x12, 0xCD, 0xAB, 1, 0, 0, 0, 5, 0x34] 10 11).2.2.2.2.2.1 rfl,
    (feed_recursion_bounded (util_frames_new 0xABCD1234 1024)
      [0x34, 0x12, 0xCD, 0xAB, 1, 0, 0, 0, 5, 0x34] 10 11).2.2.2.2.2.2
        (by decide) (Or.inl rfl)⟩

/-! ## The error latch and `util_frames_inbox` -/

theorem awaiting_fst_fields (frames : Frames) :
    (util_frames_awaiting frames).1.inbox_err = frames.inbox_err ∧
    (util_frames_awaiting frames).1.inbox = frames.inbox ∧
    (util_frames_awaiting frames).1.magic = frames.magic ∧
    (util_frames_awaiting frames).1.max = frames.max := by
  unfold util_frames_awaiting
  dsimp only
  split <;> exact ⟨rfl, rfl, rfl, rfl⟩

theorem awaiting_fst_stage (frames : Frames) (hst : frames.inlen = 0 ∨ frames.inlen = 8) :
    (util_frames_awaiting frames).1.inlen = 8 := by
  unfold util_frames_awaiting
  dsimp only
  split
  · rfl
  · rename_i h0
    rcases hst with h | h
    · exact absurd h h0
    · exact h

/-- One invocation of `util_frames_inbox` in a latched state with no payload in
progress, when the call completes no valid header: it faults, or it returns
with the latch set, no payload in progress and the inbox as it was. -/
theorem inbox_body_latched (frames : Frames) (data : List Byte) (len : Nat)
    (hl : frames.inbox_err = true) (hst : frames.inlen = 0 ∨ frames.inlen = 8)
    (hq : completes_valid_header frames data len = false) :
    util_frames_inbox_body frames data len = Invocation.fault ∨
      ∃ f ok, util_frames_inbox_body frames data len = Invocation.ret f ok ∧
        f.inbox_err = true ∧ (f.inlen = 0 ∨ f.inlen = 8) ∧ f.inbox = frames.inbox := by
  obtain ⟨hB, hC, hD, hE⟩ := awaiting_fst_fields frames
  have hA := awaiting_fst_stage frames hst
  simp only [completes_valid_header, decide_eq_false_iff_not] at hq
  rw [← hD, ← hE] at hq
  rw [hl] at hB
  unfold util_frames_inbox_body
  rw [awaiting_fst_eq]
  generalize (util_frames_awaiting frames).1 = fr at hA hB hC hq ⊢
  dsimp only
  by_cases h0 : len = 0
  · right
    exact ⟨frames, false, by simp only [h0, if_true], hl, hst, rfl⟩
  · simp only [h0, if_false]
    by_cases hlt : len < sub32 fr.inlen fr.inat
    · simp only [hlt, if_true]
      cases hm : memcpy fr.in_ fr.inat data len with
      | none => left; rfl
      | some buf =>
        right
        exact ⟨_, _, rfl, hB, Or.inr hA, hC⟩
    · simp only [hlt, if_false]
      cases hm : memcpy fr.in_ fr.inat data
          (if len > sub32 fr.inlen fr.inat then sub32 fr.inlen fr.inat else len) with
      | none => left; rfl
      | some buf =>
        simp only [hA, if_true]
        by_cases hd : data.length < 8
        · left; simp only [hd, if_true]
        · simp only [hd, if_false]
          by_cases hbad : rd32 (List.take 4 data) ≠ fr.magic ∨
              rd32 (List.take 4 (List.drop 4 data)) > fr.max
          · right
            simp only [hbad, if_true]
            exact ⟨_, _, rfl, rfl, Or.inl rfl, hC⟩
          · exfalso
            apply hq
            refine ⟨h0, by omega, ?_, ?_⟩
            · by_contra hne
              exact hbad (Or.inl hne)
            · by_contra hgt
              exact hbad (Or.inr (by omega))

theorem step_keeps_stage (frames : Frames) (op : Op) (h : op.writes_latch = false)
    (hst : frames.inlen = 0 ∨ frames.inlen = 8) :
    ∀ f got, step frames op = some (f, got) → f.inlen = 0 ∨ f.inlen = 8 := by
  intro f got hs
  cases op with
  | send out =>
    simp only [step, Option.some.injEq, Prod.mk.injEq] at hs
    rw [← hs.1]
    unfold util_frames_send; split <;> exact hst
  | receive =>
    simp only [step, Option.some.injEq] at hs
    have hf : f = (util_frames_receive frames).1 := by rw [hs]
    rw [hf]; exact hst
  | outbox =>
    simp only [step, Option.some.injEq, Prod.mk.injEq] at hs
    rw [← hs.1]
    unfold util_frames_outbox; split
    · dsimp only; split <;> exact hst
    · exact hst
  | sent =>
    simp only [step, Option.some.injEq, Prod.mk.injEq] at hs
    rw [← hs.1]
    unfold util_frames_sent; split
    · exact hst
    · split
      · exact hst
      · split <;> exact hst
  | awaiting =>
    simp only [step, Option.some.injEq, Prod.mk.injEq] at hs
    rw [← hs.1]
    exact Or.inr (awaiting_fst_stage frames hst)
  | inbox data => simp [Op.writes_latch] at h
  | clear => simp [Op.writes_latch] at h

theorem step_latched (frames : Frames) (op : Op) (hl : frames.inbox_err = true)
    (hst : frames.inlen = 0 ∨ frames.inlen = 8) (hop : op.keeps_latch frames = true) :
    ∃ f got, step frames op = some (f, got) ∧ f.inbox_err = true ∧
      (f.inlen = 0 ∨ f.inlen = 8) ∧ held frames.inbox = got.toList ++ held f.inbox := by
  by_cases hw : op.writes_latch = false
  · obtain ⟨f, got, hs, he, hh⟩ := step_keeps_latch frames op hw
    exact ⟨f, got, hs, he.trans hl, step_keeps_stage frames op hw hst f got hs, hh⟩
  · cases op with
    | inbox data =>
      simp only [Op.keeps_latch, Bool.and_eq_true, Bool.not_eq_true'] at hop
      obtain ⟨hret, hq⟩ := hop
      rcases inbox_body_latched frames data data.length hl hst hq with hb | ⟨f, ok, hb, h1, h2, h3⟩
      · simp only [util_frames_inbox, util_frames_inbox_go, hb] at hret
        simp at hret
      · refine ⟨f, none, ?_, h1, h2, by rw [h3]; rfl⟩
        simp only [step, util_frames_inbox, util_frames_inbox_go, hb]
    | clear => simp [Op.keeps_latch] at hop
    | send out => simp [Op.writes_latch] at hw
    | receive => simp [Op.writes_latch] at hw
    | outbox => simp [Op.writes_latch] at hw
    | sent => simp [Op.writes_latch] at hw
    | awaiting => simp [Op.writes_latch] at hw

theorem latched_stage_body (frames : Frames) (data : List Byte) (len : Nat) (f : Frames)
    (hi : frames.inbox_err = true → frames.inlen = 0 ∨ frames.inlen = 8)
    (h : (util_frames_inbox_body frames data len).state = some f) :
    f.inbox_err = true → f.inlen = 0 ∨ f.inlen = 8 := by
  obtain ⟨hB, _, _, _⟩ := awaiting_fst_fields frames
  rcases inbox_body_succ frames data len f h with h | ⟨fr, hfr, hc⟩
  · rw [h]; exact hi
  · rcases hc with ⟨buf, n, _, _, _, rfl⟩ | ⟨_, rfl⟩ | ⟨_, L, _, rfl⟩ | ⟨_, buf, n, _, rfl⟩
    · intro he
      have he' : frames.inbox_err = true := by
        rw [← hB, ← hfr]; exact he
      exact Or.inr (by show fr.inlen = 8; rw [hfr]; exact awaiting_fst_stage frames (hi he'))
    · exact fun _ => Or.inl rfl
    · intro he
      exact absurd he (by simp)
    · exact fun _ => Or.inl rfl

theorem latched_stage_go (fuel : Nat) (frames : Frames) (data : List Byte) (len : Nat)
    (f : Frames) (ok : Bool)
    (hi : frames.inbox_err = true → frames.inlen = 0 ∨ frames.inlen = 8)
    (h : util_frames_inbox_go fuel frames data len = Outcome.ret f ok) :
    f.inbox_err = true → f.inlen = 0 ∨ f.inlen = 8 := by
  induction fuel generalizing frames data len with
  | zero => simp [util_frames_inbox_go] at h
  | succ fuel ih =>
    rw [util_frames_inbox_go] at h
    cases hb : util_frames_inbox_body frames data len with
    | ret f' ok' =>
      rw [hb] at h
      injection h with h1 h2
      subst h1
      exact latched_stage_body frames data len f' hi (by rw [hb]; rfl)
    | fault => rw [hb] at h; simp at h
    | again f' m ml =>
      rw [hb] at h
      exact ih f' m ml (latched_stage_body frames data len f' hi (by rw [hb]; rfl)) h

theorem latched_stage_step (s : Frames) (op : Op) (f : Frames) (got : Option Lob)
    (hi : s.inbox_err = true → s.inlen = 0 ∨ s.inlen = 8)
    (h : step s op = some (f, got)) : f.inbox_err = true → f.inlen = 0 ∨ f.inlen = 8 := by
  cases op with
  | send out =>
    simp only [step, Option.some.injEq, Prod.mk.injEq] at h
    rw [← h.1]
    unfold util_frames_send; split <;> exact hi
  | receive =>
    simp only [step, Option.some.injEq] at h
    have hf : f = (util_frames_receive s).1 := by rw [h]
    rw [hf]; exact hi
  | outbox =>
    simp only [step, Option.some.injEq, Prod.mk.injEq] at h
    rw [← h.1]
    unfold util_frames_outbox; split
    · dsimp only; split <;> exact hi
    · exact hi
  | sent =>
    simp only [step, Option.some.injEq, Prod.mk.injEq] at h
    rw [← h.1]
    unfold util_frames_sent; split
    · exact hi
    · split
      · exact hi
      · split <;> exact hi
  | awaiting =>
    simp only [step, Option.some.injEq, Prod.mk.injEq] at h
    rw [← h.1]
    intro he
    rw [(awaiting_fst_fields s).1] at he
    exact Or.inr (awaiting_fst_stage s (hi he))
  | inbox data =>
    simp only [step] at h
    cases ho : util_frames_inbox s data data.length with
    | ret f' ok =>
      rw [ho] at h
      simp only [Option.some.injEq, Prod.mk.injEq] at h
      rw [← h.1]
      exact latched_stage_go _ s data data.length f' ok hi ho
    | fault => rw [ho] at h; simp at h
    | nofuel => rw [ho] at h; simp at h
  | clear =>
    simp only [step, Option.some.injEq, Prod.mk.injEq] at h
    rw [← h.1]
    exact fun _ => Or.inl rfl

theorem latched_stage_run (ops : List Op) (s f : Frames) (got : List Lob)
    (hi : s.inbox_err = true → s.inlen = 0 ∨ s.inlen = 8)
    (h : run s ops = some (f, got)) : f.inbox_err = true → f.inlen = 0 ∨ f.inlen = 8 := by
  induction ops generalizing s got with
  | nil =>
    simp only [run, Option.some.injEq, Prod.mk.injEq] at h
    rw [← h.1]; exact hi
  | cons op ops ih =>
    rw [run] at h
    cases hs : step s op with
    | none => rw [hs] at h; simp at h
    | some r =>
      obtain ⟨s1, g1⟩ := r
      rw [hs] at h
      dsimp only at h
      cases hr : run s1 ops with
      | none => rw [hr] at h; simp at h
      | some r2 =>
        obtain ⟨s2, g2⟩ := r2
        rw [hr] at h
        simp only [Option.some.injEq, Prod.mk.injEq] at h
        rw [h.1] at hr
        exact ih s1 g2 (latched_stage_step s op s1 g1 hi hs) hr

/-- In every reachable state whose latch is set no payload is in progress. -/
theorem reachable_latched_stage (s : Frames) (h : Reachable s) (hl : s.inbox_err = true) :
    s.inlen = 0 ∨ s.inlen = 8 := by
  obtain ⟨magic, max, ops, got, hr⟩ := h
  exact latched_stage_run ops _ s got (fun _ => Or.inl rfl) hr hl

/-- C6, amended. In a state whose latch is set and which has no payload in
progress (`inlen` is 0 or 8), every sequence of operations without
`util_frames_clear` in which every `util_frames_inbox` call returns and
completes no valid header leaves the latch set (`util_frames_ok` fails); the
packets held in the inbox before are the packets the `util_frames_receive`
calls of the sequence returned followed by the packets held afterwards, so
none is added, and further `util_frames_receive` calls return the remaining
ones in order. -/
theorem latch_persists (frames : Frames) (ops : List Op)
    (hl : frames.inbox_err = true) (hst : frames.inlen = 0 ∨ frames.inlen = 8)
    (hops : latch_undisturbed frames ops = true) :
    ∃ f got, run frames ops = some (f, got) ∧ f.inbox_err = true ∧
      util_frames_ok f = false ∧ held frames.inbox = got ++ held f.inbox ∧
      (receive_many (held f.inbox).length f).2 = (held f.inbox).map some := by
  induction ops generalizing frames with
  | nil =>
    refine ⟨frames, [], rfl, hl, by simp [util_frames_ok, hl], by simp, ?_⟩
    simp [receive_many_snd]
  | cons op ops ih =>
    simp only [latch_undisturbed, Bool.and_eq_true] at hops
    obtain ⟨hop, hrest⟩ := hops
    obtain ⟨f1, got1, h1, he1, hs1, hh1⟩ := step_latched frames op hl hst hop
    rw [h1] at hrest
    obtain ⟨f, got, h2, he2, hok, hh2, hr⟩ := ih f1 he1 hs1 hrest
    refine ⟨f, got1.toList ++ got, ?_, he2, hok, ?_, hr⟩
    · simp only [run, h1, h2]
    · rw [hh1, hh2, List.append_assoc]

theorem latch_persists_witness :
    (Frames.mk 5 64 none 0 0 none 0 [some ⟨[1]⟩, some ⟨[2]⟩] [] false false true).inbox_err
      = true ∧
    ((Frames.mk 5 64 none 0 0 none 0 [some ⟨[1]⟩, some ⟨[2]⟩] [] false false true).inlen = 0 ∨
      (Frames.mk 5 64 none 0 0 none 0 [some ⟨[1]⟩, some ⟨[2]⟩] [] false false true).inlen
        = 8) ∧
    latch_undisturbed
      (Frames.mk 5 64 none 0 0 none 0 [some ⟨[1]⟩, some ⟨[2]⟩] [] false false true)
      [Op.inbox [6, 0, 0, 0, 3, 0, 0, 0, 1, 2, 3], Op.receive, Op.inbox [5, 0, 0],
        Op.send (some ⟨[1, 2, 3, 4, 5, 6, 7, 8, 9]⟩), Op.outbox, Op.sent, Op.awaiting,
        Op.inbox [5, 0, 0, 0, 65, 0, 0, 0]] = true ∧
    ∃ f got,
      run (Frames.mk 5 64 none 0 0 none 0 [some ⟨[1]⟩, some ⟨[2]⟩] [] false false true)
        [Op.inbox [6, 0, 0, 0, 3, 0, 0, 0, 1, 2, 3], Op.receive, Op.inbox [5, 0, 0],
          Op.send (some ⟨[1, 2, 3, 4, 5, 6, 7, 8, 9]⟩), Op.outbox, Op.sent, Op.awaiting,
          Op.inbox [5, 0, 0, 0, 65, 0, 0, 0]] = some (f, got) ∧
      f.inbox_err = true ∧ util_frames_ok f = false ∧
      held (Frames.mk 5 64 none 0 0 none 0 [some ⟨[1]⟩, some ⟨[2]⟩] [] false false true).inbox
        = got ++ held f.inbox ∧
      (receive_many (held f.inbox).length f).2 = (held f.inbox).map some :=
  ⟨rfl, Or.inl rfl, by decide, latch_persists _ _ rfl (Or.inl rfl) (by decide)⟩

end UtilFrames
